import Mathlib

/-!
Verification development for the `webcrawler` repository.

The Python sources (`crawler.py`, `page.py`, `crawler/favicon.py`,
`crawler/host.py`) are shallowly embedded below.  Pure functions become Lean
functions; the mutable state of the crawler (id generator counter, DFS node
list, favicon cache) is threaded explicitly; Python exceptions become an
`Except PyErr` result; the HTTP client (`site_utils.retrieve_url`) and the
`md5` digest are environment parameters, matching the "HTTP client contract"
and blob-store boundary of the design.  Recursive definitions use structural
recursion (with explicit fuel where Python uses unbounded loops) so that every
definition evaluates inside the kernel on concrete inputs.

String values are handled as `List Char` internally; `re.IGNORECASE` is
modelled with ASCII `Char.toLower`, which is exact for the inputs the
regexes in this program are applied to.
-/

/-- Python `str.startswith`: `pre` is a literal prefix of `s` (case sensitive). -/
def listIsPrefixOf : List Char → List Char → Bool
  | [], _ => true
  | _ :: _, [] => false
  | p :: ps, c :: cs => p = c && listIsPrefixOf ps cs

/-- Models `str.startswith` on Lean strings. -/
def pyStartsWith (s pre : String) : Bool := listIsPrefixOf pre.data s.data

/-- Case-insensitive character equality (ASCII lowering, as `re.IGNORECASE`). -/
def ciEqChar (a b : Char) : Bool := a.toLower = b.toLower

/-- Case-insensitive list equality. -/
def ciListEq : List Char → List Char → Bool
  | [], [] => true
  | a :: as, b :: bs => ciEqChar a b && ciListEq as bs
  | _, _ => false

/-- Case-insensitive prefix test. -/
def ciListPre : List Char → List Char → Bool
  | [], _ => true
  | _ :: _, [] => false
  | p :: ps, c :: cs => ciEqChar p c && ciListPre ps cs

/-- Case-insensitive `startswith` on strings. -/
def ciStartsWith (s pre : String) : Bool := ciListPre pre.data s.data

/-- Python `str.find(sub)`: index of the first occurrence, `-1` if absent. -/
def findSub : List Char → List Char → Int
  | [], n => if n = [] then 0 else -1
  | h :: t, n =>
    if listIsPrefixOf n (h :: t) then 0
    else
      let r := findSub t n
      if r < 0 then -1 else r + 1

/-- The double-quote character (written via its code point). -/
def dqChar : Char := Char.ofNat 34

/-- The single-quote character (written via its code point). -/
def sqChar : Char := Char.ofNat 39

/-- Insertion into a list sorted by `le` (used to model Python `list.sort`). -/
def insSorted (le : α → α → Bool) (x : α) : List α → List α
  | [] => [x]
  | y :: ys => if le y x then y :: insSorted le x ys else x :: y :: ys

/-- Sort by `le` (used to model Python `list.sort`, which sorts by a key). -/
def insSort (le : α → α → Bool) : List α → List α
  | [] => []
  | x :: xs => insSorted le x (insSort le xs)

/-!  ## Backtracking regular-expression pieces

A pattern piece maps a position in the fixed text to the list of candidate
end positions, in Python's backtracking priority order (greedy first).  The
first candidate that lets the remainder of the pattern succeed is the match,
exactly as in CPython's `re`. -/

/-- Sequencing of pattern pieces; candidate order is preserved. -/
def mSeq (a b : List Char → Nat → List Nat) : List Char → Nat → List Nat :=
  fun t p => (a t p).flatMap (b t)

/-- A case-insensitive literal. -/
def mLitCI (s : String) : List Char → Nat → List Nat :=
  fun t p => if ciListPre s.data (t.drop p) then [p + s.data.length] else []

/-- A single character from a class. -/
def mClass (f : Char → Bool) : List Char → Nat → List Nat :=
  fun t p =>
    if p < t.length then (if f (t.getD p ' ') then [p + 1] else []) else []

/-- Greedy `?` (try to consume, then fall back to the empty match). -/
def mOpt (a : List Char → Nat → List Nat) : List Char → Nat → List Nat :=
  fun t p => a t p ++ [p]

/-- Length of the run of class characters starting at the head. -/
def runLenL (f : Char → Bool) : List Char → Nat
  | [] => 0
  | c :: r => if f c then runLenL f r + 1 else 0

/-- Greedy `*` over a character class: longest candidate first. -/
def mStar (f : Char → Bool) : List Char → Nat → List Nat :=
  fun t p =>
    let m := runLenL f (t.drop p)
    (List.range (m + 1)).map (fun k => p + (m - k))

/-- Greedy `+` over a character class: longest candidate first, at least one. -/
def mPlus (f : Char → Bool) : List Char → Nat → List Nat :=
  fun t p =>
    let m := runLenL f (t.drop p)
    (List.range m).map (fun k => p + (m - k))

/-- Greedy `{1,}` repetition of a piece (fuel-bounded; more repetitions first). -/
def mRep1Aux (a : List Char → Nat → List Nat) (t : List Char) : Nat → Nat → List Nat
  | 0, p => a t p
  | fuel + 1, p =>
    (a t p).flatMap (fun q => if p < q then mRep1Aux a t fuel q ++ [q] else [q])

/-- Greedy `{1,}` repetition of a piece. -/
def mRep1 (a : List Char → Nat → List Nat) : List Char → Nat → List Nat :=
  fun t p => mRep1Aux a t (t.length + 1) p

/-- Negative lookbehind `(?<!s)` (case-insensitive, checks the whole text). -/
def mNotBehindCI (s : String) : List Char → Nat → List Nat :=
  fun t p =>
    if s.data.length ≤ p && ciListEq s.data ((t.drop (p - s.data.length)).take s.data.length)
    then [] else [p]

/-!  ## The three regexes of the sources

`page.link_regex`:
`<a [^>]*href=['"]?(?P<link>(https?://)?([a-z0-9\-]+\.){1,}[a-z0-9]+(?<!\.html)((\?|/)[^'" ]*)?)['" ]`
compiled with `re.I`. -/

/-- Models `['"]` — quote characters. -/
def quoteChar (c : Char) : Bool := c = dqChar || c = sqChar

/-- Models `['" ]` — a quote or a space (closes a link). -/
def linkEndChar (c : Char) : Bool := quoteChar c || c = ' '

/-- Models `[^'" ]` — anything but a quote or a space (link tails). -/
def linkTailChar (c : Char) : Bool := !(quoteChar c || c = ' ')

/-- Models `[a-z0-9\-]` under `re.I` — label characters. -/
def labelChar (c : Char) : Bool := c.isAlpha || c.isDigit || c = '-'

/-- Models `[a-z0-9]` under `re.I` — alphanumeric characters. -/
def alnumChar (c : Char) : Bool := c.isAlpha || c.isDigit

/-- The part of `link_regex` before the `link` capture group. -/
def linkPre : List Char → Nat → List Nat :=
  mSeq (mLitCI "<a ")
    (mSeq (mStar (fun c => c ≠ '>'))
      (mSeq (mLitCI "href=") (mOpt (mClass quoteChar))))

/-- Models `(https?://)?` — the optional scheme (greedy, `https` before `http`). -/
def linkScheme : List Char → Nat → List Nat :=
  mOpt (mSeq (mLitCI "http") (mSeq (mOpt (mLitCI "s")) (mLitCI "://")))

/-- Models `[a-z0-9\-]+\.` — one dotted label. -/
def labelDotM : List Char → Nat → List Nat :=
  mSeq (mPlus labelChar) (mLitCI ".")

/-- The `link` capture group of `link_regex`. -/
def linkBody : List Char → Nat → List Nat :=
  mSeq linkScheme
    (mSeq (mRep1 labelDotM)
      (mSeq (mPlus alnumChar)
        (mSeq (mNotBehindCI ".html")
          (mOpt (mSeq (mClass (fun c => c = '?' || c = '/')) (mStar linkTailChar))))))

/-- Attempt `link_regex` at position `p`; on success, the captured `link`
group and the end position of the whole match. -/
def linkMatchAt (t : List Char) (p : Nat) : Option (List Char × Nat) :=
  ((linkPre t p).flatMap (fun g1 =>
    (linkBody t g1).flatMap (fun g2 =>
      (mClass linkEndChar t g2).map (fun e => ((t.drop g1).take (g2 - g1), e))))).head?

/-- Models `link_regex.finditer`: scan left to right, continuing at each match end. -/
def extractLinksAux (t : List Char) : Nat → Nat → List (List Char)
  | 0, _ => []
  | fuel + 1, p =>
    if t.length ≤ p then []
    else
      match linkMatchAt t p with
      | some (cap, e) => cap :: extractLinksAux t fuel (max e (p + 1))
      | none => extractLinksAux t fuel (p + 1)

/-- Models `page.extract_links` (the `to_utf8` decode is the identity here: content
is already text; decode errors are replaced, never fatal). -/
def extractLinks (page : String) : List String :=
  (extractLinksAux page.data (page.data.length + 1) 0).map String.mk

/-!  `host.host_regex` / `page.host_regex`:
`https?://([a-z0-9\-]+\.){1,}[a-z0-9]+` with `re.IGNORECASE`, used anchored
(`.match`).  Because `\.` is not a label character, the greedy repetition is
equivalent to: consume maximal `label.` segments, then drop trailing segments
until a nonempty alphanumeric run follows. -/

/-- Cumulative lengths of the successive maximal `label '.'` segments. -/
def labelPairsAux : Nat → List Char → List Nat
  | 0, _ => []
  | fuel + 1, l =>
    let r := runLenL labelChar l
    if 0 < r ∧ l.getD r ' ' = '.' then
      (r + 1) :: (labelPairsAux fuel (l.drop (r + 1))).map (fun n => n + (r + 1))
    else []

/-- Cumulative lengths of the `([a-z0-9\-]+\.){1,}` candidates, ascending. -/
def labelPairs (l : List Char) : List Nat := labelPairsAux (l.length + 1) l

/-- Total length matched by `([a-z0-9\-]+\.){1,}[a-z0-9]+` (greedy), if any. -/
def pickLabels (l : List Char) : Option Nat :=
  (labelPairs l).reverse.findSome? (fun s =>
    let r := runLenL alnumChar (l.drop s)
    if 0 < r then some (s + r) else none)

/-- Models `host.get_host` / `page.get_host`: `host_regex.match(url).group()`.
Returns `none` when the anchored match fails — in Python that is an
`AttributeError` (`None.group()`) at the call site. -/
def getHost (url : String) : Option String :=
  let l := url.data
  let k? : Option Nat :=
    if ciListPre "https://".data l then some 8
    else if ciListPre "http://".data l then some 7
    else none
  k?.bind (fun k => (pickLabels (l.drop k)).map (fun n => String.mk (l.take (k + n))))

/-!  `page.make_phrase_regex`: `['"( ]` + phrase + `[\.?!)'" ]`, `re.IGNORECASE`,
used with `.search`.  (The phrase is spliced into the pattern verbatim; the
model covers phrases without regex metacharacters, which is every phrase this
program is used with.) -/

/-- Models `['"( ]` — the class required before the phrase. -/
def phrasePre (c : Char) : Bool := c = sqChar || c = dqChar || c = '(' || c = ' '

/-- Models `[\.?!)'" ]` — the class required after the phrase (note: no comma). -/
def phrasePost (c : Char) : Bool :=
  c = '.' || c = '?' || c = '!' || c = ')' || c = sqChar || c = dqChar || c = ' '

/-- One attempt of the phrase regex at position `i`. -/
def matchPhraseAt (ph t : List Char) (i : Nat) : Bool :=
  (i < t.length && phrasePre (t.getD i ' '))
    && ciListEq ph ((t.drop (i + 1)).take ph.length)
    && (i + 1 + ph.length < t.length && phrasePost (t.getD (i + 1 + ph.length) ' '))

/-- Models `make_phrase_regex(phrase).search(text)` as a Boolean. -/
def phraseSearch (ph t : List Char) : Bool :=
  (List.range t.length).any (matchPhraseAt ph t)

/-- Phrase search on strings. -/
def makePhraseRegexSearch (phrase text : String) : Bool :=
  phraseSearch phrase.data text.data

/-!  ## Data model -/

/-- The Python exceptions this program raises or catches. -/
inductive PyErr
  | typeError
  | attributeError
  | unicodeEncodeError
  | indexError
deriving DecidableEq, Repr

/-- An HTTP response, as produced by `site_utils.retrieve_url` (the "HTTP
client contract": `fetch(url) -> {status_code, content}` or null). -/
structure Response where
  status_code : Int
  content : String
deriving DecidableEq, Repr

/-- Models `page.PageNode`.  `links` is the `_links` list; stored nodes always carry
a list here (rehydration is not needed by the claims below). -/
structure PageNode where
  id : Int
  depth : Nat
  parent : Option Int
  url : String
  links : List String
  phrase_found : Bool
  favicon : Option String
deriving DecidableEq, Repr

instance : Inhabited PageNode := ⟨⟨0, 0, none, "", [], false, none⟩⟩

/-- An element of a stored result batch: a page node or the
`TerminationSentinal`. -/
inductive Entry
  | node (n : PageNode)
  | sentinel
deriving DecidableEq, Repr

/-- The environment of a crawl: the HTTP client, plus favicon resolution for
`PageNode.__init__` (the favicon component is modelled in full separately
below; inside the page factory only its result value matters). -/
structure CrawlEnv where
  fetch : String → Option Response
  favicon : String → Option String

/-!  ## `page.PageNode` fetch-and-parse -/

/-- The URL normalization at the top of `PageNode.__init__`: strip a leading
`//`; prepend `http://` when the URL does not start with the string `http`
(an ordinary case-sensitive `startswith` test, not a scheme test). -/
def normalizeUrl (url : String) : String :=
  let u := if pyStartsWith url "//" then String.mk (url.data.drop 2) else url
  if pyStartsWith u "http" then u else "http://" ++ u

/-- Models `PageNode.load` on an already-normalized URL.  Returns the filtered link
list and the `phrase_found` flag; raises `TypeError` when the page cannot be
retrieved with status 200, and `AttributeError` when `get_host` finds no
match (`host_regex.match(url)` is `None` and `.group()` fails). -/
def pageLoad (env : CrawlEnv) (url : String) (end_phrase : Option String) :
    Except PyErr (List String × Bool) :=
  match env.fetch url with
  | none => .error .typeError
  | some res =>
    if res.status_code ≠ 200 then .error .typeError
    else
      match getHost url with
      | none => .error .attributeError
      | some host =>
        let links := (extractLinks res.content).filter (fun l => !(pyStartsWith l host))
        let pf :=
          match end_phrase with
          | some ph => makePhraseRegexSearch ph res.content
          | none => false
        .ok (links, pf)

/-- The `id` argument of `PageNode.__init__`: a concrete integer or the
callable id generator. -/
inductive IdArg
  | value (i : Int)
  | callable
deriving DecidableEq, Repr

/-- Models `PageNode.__init__`.  The generator state is the `cur_id` counter of the
crawl's `IDGenerator`; it is threaded through and returned.  Note that
`__init__` calls `self.load()` with no arguments, so the `end_phrase`
parameter is accepted but never used and `phrase_found` is always `False`
for a freshly constructed node. -/
def pageNodeInit (env : CrawlEnv) (idArg : IdArg) (gen : Int) (url : String)
    (parent : Option PageNode) : Except PyErr (PageNode × Int) :=
  let u := normalizeUrl url
  match pageLoad env u none with
  | .error e => .error e
  | .ok (links, pf) =>
    let fav := env.favicon u
    let (idv, gen') :=
      match idArg with
      | .callable => (gen + 1, gen + 1)
      | .value i => (i, gen)
    let (par, dep) :=
      match parent with
      | some p => (some p.id, p.depth + 1)
      | none => (none, 0)
    .ok ({ id := idv, depth := dep, parent := par, url := u, links := links,
           phrase_found := pf, favicon := fav }, gen')

/-- Models `PageNode.make_pagenode`: the factory wrapper.  It catches exactly
`TypeError` and `UnicodeEncodeError`, turning them into a null result;
every other exception propagates. -/
def makePagenode (env : CrawlEnv) (idArg : IdArg) (gen : Int) (url : String)
    (parent : Option PageNode) : Except PyErr (Option PageNode × Int) :=
  match pageNodeInit env idArg gen url parent with
  | .ok (n, g) => .ok (some n, g)
  | .error .typeError => .ok (none, gen)
  | .error .unicodeEncodeError => .ok (none, gen)
  | .error e => .error e

/-- The fetch of (the normalization of) `url` fails outright or returns a
non-200 status — the `PageUnreachable` case of the design. -/
def fetchFails (env : CrawlEnv) (url : String) : Prop :=
  match env.fetch (normalizeUrl url) with
  | none => True
  | some r => r.status_code ≠ 200

instance (env : CrawlEnv) (url : String) : Decidable (fetchFails env url) := by
  unfold fetchFails
  cases env.fetch (normalizeUrl url) <;> infer_instance

/-!  ## `crawler.IDGenerator`

`IDGenerator(starting)` sets `cur_id = starting - 1`; each call (under the
instance lock, so calls are serialized) increments `cur_id` and returns it.
The model state is the `cur_id` counter. -/

/-- Models `IDGenerator.__init__`: the initial counter. -/
def idGenInit (starting : Int) : Int := starting - 1

/-- Models `IDGenerator.__call__`: returns the new id and the new counter. -/
def idGenCall (cur : Int) : Int × Int := (cur + 1, cur + 1)

/-- The ids produced by `n` successive calls of one generator instance. -/
def idGenCalls : Int → Nat → List Int
  | _, 0 => []
  | cur, n + 1 => (idGenCall cur).1 :: idGenCalls (idGenCall cur).2 n

/-- Models `g < x₁ < x₂ < …`: the list ascends strictly starting above `g`. -/
def ascFrom : Int → List Int → Bool
  | _, [] => true
  | g, x :: xs => (g < x) && ascFrom x xs

/-!  ## `crawler/favicon.py` — the favicon resolver and cache

`HostToHashDict` and `HashSet` are persisted pickles; their blob-store
write-through (`_save` after five new entries) is an external best-effort
side effect and is not part of the state transitions proved about.  The
model state carries the two in-memory collections.  The fetch log (the list
of URLs passed to `retrieve_url`) is returned so that network probes can be
counted. -/

/-- Models `crawler/favicon.py` environment: HTTP client plus the `md5` digest of
the `hashlib` library. -/
structure FavEnv where
  fetch : String → Option Response
  md5hex : String → String

/-- The favicon cache state: `Favicon.host_to_hash` and `Favicon.hash_set`. -/
structure FavState where
  host_to_hash : List (String × Option String)
  hash_set : List String
deriving DecidableEq, Repr

/-- Models `HostToHashDict.__setitem__`: inserts only when the key is absent. -/
def hhSet (m : List (String × Option String)) (k : String) (v : Option String) :
    List (String × Option String) :=
  if (m.lookup k).isSome then m else (k, v) :: m

/-- Models `HashSet.add`: adds only when absent. -/
def hsAdd (s : List String) (h : String) : List String :=
  if s.contains h then s else h :: s

/-- Models `Favicon._get_host_key`: `host` and `host[host.find('//')+2:]`.  `none`
models the `AttributeError` raised by `get_host` on a non-matching URL. -/
def getHostKey (url : String) : Option (String × String) :=
  (getHost url).map (fun host =>
    (host, String.mk (host.data.drop ((findSub host.data "//".data + 2).toNat))))

/-- Models `icon_regex` of `crawler/favicon.py`:
`<link [^>]*rel=['"](shortcut )?icon['"] [^>]*href=['"]?\.?(?P<icon>[^'" ]*)[^>]*>`
(`re.IGNORECASE`).  The part before the `icon` capture group. -/
def iconPre : List Char → Nat → List Nat :=
  mSeq (mLitCI "<link ")
    (mSeq (mStar (fun c => c ≠ '>'))
      (mSeq (mLitCI "rel=")
        (mSeq (mClass quoteChar)
          (mSeq (mOpt (mLitCI "shortcut "))
            (mSeq (mLitCI "icon")
              (mSeq (mClass quoteChar)
                (mSeq (mLitCI " ")
                  (mSeq (mStar (fun c => c ≠ '>'))
                    (mSeq (mLitCI "href=")
                      (mSeq (mOpt (mClass quoteChar)) (mOpt (mLitCI "."))))))))))))

/-- Attempt `icon_regex` at position `p`; on success the captured `icon`. -/
def iconMatchAt (t : List Char) (p : Nat) : Option (List Char) :=
  ((iconPre t p).flatMap (fun g1 =>
    (mStar linkTailChar t g1).flatMap (fun g2 =>
      (mSeq (mStar (fun c => c ≠ '>')) (mLitCI ">") t g2).map (fun _ =>
        (t.drop g1).take (g2 - g1))))).head?

/-- Models `icon_regex.search`: first matching position wins. -/
def iconSearchAux (t : List Char) : Nat → Nat → Option (List Char)
  | 0, _ => none
  | fuel + 1, p =>
    if t.length ≤ p then none
    else
      match iconMatchAt t p with
      | some cap => some cap
      | none => iconSearchAux t fuel (p + 1)

/-- Models `icon_regex.search(page)` returning the `icon` group. -/
def iconSearch (page : String) : Option String :=
  (iconSearchAux page.data (page.data.length + 1) 0).map String.mk

/-- Models `Favicon._download_favicon` (mode `true`) and
`Favicon._extract_favicon_from_page` (mode `false`) combined in one
structurally recursive function (they are mutually recursive in the source;
the recursion alternates between the two and `level` caps it at three hops).
Returns the icon bytes (or `none`) together with the list of URLs fetched.
The fuel only bounds the recursion for Lean; with the initial fuel used by
the wrappers below it never runs out because `level` grows on every hop. -/
def favGo (env : FavEnv) : Nat → Bool → Nat → String → String →
    Except PyErr (Option String × List String)
  | 0, _, _, _, _ => .ok (none, [])
  | fuel + 1, true, level, url, _ =>
    -- _download_favicon(url, level)
    if 3 < level then .ok (none, [])
    else
      match env.fetch url with
      | none => .ok (none, [url])
      | some res =>
        if res.status_code = 200 then .ok (some res.content, [url])
        else if res.status_code = 404 then
          match favGo env fuel false (level + 1) url res.content with
          | .error e => .error e
          | .ok (icon, probes) => .ok (icon, url :: probes)
        else .ok (none, [url])
  | fuel + 1, false, level, url, page =>
    -- _extract_favicon_from_page(page, url, level)
    if 3 < level then .ok (none, [])
    else
      match getHost url with
      | none => .error .attributeError
      | some host =>
        match iconSearch page with
        | none => .ok (none, [])
        | some icon0 =>
          let iconUrl :=
            if pyStartsWith icon0 "//" then "http:" ++ icon0
            else if pyStartsWith icon0 "/" then host ++ icon0
            else icon0
          favGo env fuel true (level + 1) iconUrl ""

/-- Models `Favicon._download_favicon(favicon_url, level=1)`. -/
def faviconDownload (env : FavEnv) (level : Nat) (url : String) :
    Except PyErr (Option String × List String) :=
  favGo env 9 true level url ""

/-- Models `Favicon._extract_favicon_from_page(page, url, level=1)`. -/
def faviconExtract (env : FavEnv) (level : Nat) (page url : String) :
    Except PyErr (Option String × List String) :=
  favGo env 9 false level url page

/-- The icon-acquisition block of a `get_favicon` cache miss: `if page:
icon = _extract_favicon_from_page(page, url)`, then `if not page or not
icon: icon = _download_favicon(host + '/favicon.ico')`. -/
def faviconFetchIcon (env : FavEnv) (host url : String) (page : Option String) :
    Except PyErr (Option String × List String) :=
  match page with
  | some pg =>
    match faviconExtract env 1 pg url with
    | .error e => .error e
    | .ok (some icon, probes) => .ok (some icon, probes)
    | .ok (none, probes) =>
      match faviconDownload env 1 (host ++ "/favicon.ico") with
      | .error e => .error e
      | .ok (icon2, probes2) => .ok (icon2, probes ++ probes2)
  | none => faviconDownload env 1 (host ++ "/favicon.ico")

/-- Models `Favicon.BASE`. -/
def faviconBase : String := "https://gammacrawler.appspot.com/favicons/"

/-- Models `Favicon.get_favicon(url, page=None)` of `crawler/favicon.py`.  The whole
body runs under `cls.lock`, so successive calls in the model are simply
sequential state transitions.  Returns the result, the new cache state and
the list of fetched URLs. -/
def getFavicon (env : FavEnv) (st : FavState) (url : String) (page : Option String) :
    Except PyErr (Option String × FavState × List String) :=
  match getHostKey url with
  | none => .error .attributeError
  | some (host, host_key) =>
    match st.host_to_hash.lookup host_key with
    | some icon_hash =>
      -- cache hit
      match icon_hash with
      | some h => .ok (some (faviconBase ++ h ++ ".ico"), st, [])
      | none => .ok (none, st, [])
    | none =>
      -- cache miss
      match faviconFetchIcon env host url page with
      | .error e => .error e
      | .ok (none, probes) =>
        .ok (none, ⟨hhSet st.host_to_hash host_key none, st.hash_set⟩, probes)
      | .ok (some icon, probes) =>
        let icon_hash := env.md5hex icon
        let st1 : FavState :=
          ⟨hhSet st.host_to_hash host_key (some icon_hash),
           hsAdd st.hash_set icon_hash⟩
        .ok (some (faviconBase ++ icon_hash ++ ".ico"), st1, probes)

/-!  ## `crawler.py` — strategies and the driver -/

/-- How a `_crawl` producer run ends: normal return, out of model fuel, or a
Python exception escaping the generator. -/
inductive CrawlExit
  | normal
  | fuelOut
  | err (e : PyErr)
deriving DecidableEq, Repr

/-- The state of `DepthFirstCrawler._crawl`: the `node_list`, the index of
`cur_node` in it, the stream of `random.choice` picks, and the `cur_id`
counter of `self.id_gen`. -/
structure DfsState where
  node_list : List PageNode
  curIdx : Nat
  rand : List Nat
  gen : Int

/-- The inner link loop of `DepthFirstCrawler._crawl`: repeatedly
`random.choice` a link, `links.remove` it, and try `make_pagenode` until a
node is built or the links run out.  Fuel is the length of the link list.
Returns the remaining links, the built node (if any), the remaining picks,
the generator counter, and an exception escaping `make_pagenode` (if any). -/
def dfsTryLinks (env : CrawlEnv) :
    Nat → List String → PageNode → List Nat → Int →
    List String × Option PageNode × List Nat × Int × Option PyErr
  | 0, links, _, rand, gen => (links, none, rand, gen, none)
  | fuel + 1, links, cur, rand, gen =>
    if links.isEmpty then (links, none, rand, gen, none)
    else
      -- link = random.choice(cur_node.links); cur_node.links.remove(link)
      match makePagenode env .callable gen
          (links.getD (rand.headD 0 % links.length) "") (some cur) with
      | .error e =>
        (links.erase (links.getD (rand.headD 0 % links.length) ""),
         none, rand.tail, gen, some e)
      | .ok (some n, g') =>
        (links.erase (links.getD (rand.headD 0 % links.length) ""),
         some n, rand.tail, g', none)
      | .ok (none, g') =>
        dfsTryLinks env fuel (links.erase (links.getD (rand.headD 0 % links.length) ""))
          cur rand.tail g'

/-- Models `DepthFirstCrawler._crawl` as a function from state to the list of
yielded nodes and the way the generator ended.  Backtracking indexes
`node_list` with the parent id (`node_list[cur_node.parent]`); at the seed
the parent is `None` and Python raises `TypeError`.  One unit of fuel per
iteration of the outer `while` loop. -/
def dfsRun (env : CrawlEnv) (maxDepth : Nat) :
    Nat → DfsState → List PageNode × CrawlExit
  | 0, _ => ([], .fuelOut)
  | fuel + 1, st =>
    let cur := st.node_list.getD st.curIdx default
    if cur.depth < maxDepth then
      match dfsTryLinks env cur.links.length cur.links cur st.rand st.gen with
      | (_, _, _, _, some e) => ([], .err e)
      | (links', none, rand', gen', none) =>
        let nl := st.node_list.set st.curIdx { cur with links := links' }
        match cur.parent with
        | none => ([], .err .typeError)
        | some p => dfsRun env maxDepth fuel ⟨nl, p.toNat, rand', gen'⟩
      | (links', some n, rand', gen', none) =>
        let nl := st.node_list.set st.curIdx { cur with links := links' }
        if n.phrase_found then ([n], .normal)
        else
          let r := dfsRun env maxDepth fuel ⟨nl ++ [n], nl.length, rand', gen'⟩
          (n :: r.1, r.2)
    else ([], .normal)

/-- A fresh DFS crawl started from a root node (the `node_list = [root]`,
`cur_node = node_list[-1]` case, with a fresh `IDGenerator()`). -/
def dfsRunFresh (env : CrawlEnv) (maxDepth fuel : Nat) (root : PageNode)
    (rand : List Nat) : List PageNode × CrawlExit :=
  dfsRun env maxDepth fuel ⟨[root], 0, rand, idGenInit 1⟩

/-- A pending fetch of `BredthFirstCrawl`: `executor.submit(make_pagenode,
id_gen, link, current_node, end_phrase)`. -/
structure BfsTask where
  par : PageNode
  link : String

instance : Inhabited BfsTask := ⟨⟨default, ""⟩⟩

/-- All fetch tasks submitted for one frontier: one per link per node. -/
def bfsTasks (frontier : List PageNode) : List BfsTask :=
  frontier.flatMap (fun nd => nd.links.map (fun l => ⟨nd, l⟩))

/-- The result of processing the tasks of one depth. -/
structure BfsStep where
  emitted : List PageNode
  next : List PageNode
  gen : Int
  sched : List Nat
  stopped : Bool

/-- Processing of the completed futures of one depth of
`BredthFirstCrawl._crawl`.  The thread pool completes fetches in an
arbitrary order; `sched` picks which pending task completes next, so every
real interleaving is one choice of `sched` (ids are allocated when a task is
processed, which serializes the generator exactly as its lock does).  A
future whose call raised is skipped: the drain loops wrap `future.result()`
in a bare `except` and `continue` on a null node (the first drain loop
assigns the typo `new_none`; the model follows the handler of the final
drain loop, which sets `new_node = None`). -/
def bfsProcess (env : CrawlEnv) (maxDepth depth : Nat) :
    Nat → List BfsTask → List Nat → Int → BfsStep
  | 0, _, sched, gen => ⟨[], [], gen, sched, false⟩
  | fuel + 1, tasks, sched, gen =>
    if tasks.isEmpty then ⟨[], [], gen, sched, false⟩
    else
      -- the completed future chosen by the scheduler: parent node and link
      match makePagenode env .callable gen
          (tasks.getD (sched.headD 0 % tasks.length) default).link
          (some (tasks.getD (sched.headD 0 % tasks.length) default).par) with
      | .error _ =>
        bfsProcess env maxDepth depth fuel
          (tasks.eraseIdx (sched.headD 0 % tasks.length)) sched.tail gen
      | .ok (none, g') =>
        bfsProcess env maxDepth depth fuel
          (tasks.eraseIdx (sched.headD 0 % tasks.length)) sched.tail g'
      | .ok (some n, g') =>
        if n.phrase_found then ⟨[n], [], g', sched.tail, true⟩
        else
          ⟨n :: (bfsProcess env maxDepth depth fuel
              (tasks.eraseIdx (sched.headD 0 % tasks.length)) sched.tail g').emitted,
           (if depth < maxDepth then
              n :: (bfsProcess env maxDepth depth fuel
                (tasks.eraseIdx (sched.headD 0 % tasks.length)) sched.tail g').next
            else (bfsProcess env maxDepth depth fuel
                (tasks.eraseIdx (sched.headD 0 % tasks.length)) sched.tail g').next),
           (bfsProcess env maxDepth depth fuel
              (tasks.eraseIdx (sched.headD 0 % tasks.length)) sched.tail g').gen,
           (bfsProcess env maxDepth depth fuel
              (tasks.eraseIdx (sched.headD 0 % tasks.length)) sched.tail g').sched,
           (bfsProcess env maxDepth depth fuel
              (tasks.eraseIdx (sched.headD 0 % tasks.length)) sched.tail g').stopped⟩

/-- The `for depth in range(1, max_depth + 1)` loop of
`BredthFirstCrawl._crawl`: process the frontier, then recurse on the nodes
collected for the next depth (unless the end phrase stopped the crawl). -/
def bfsLevels (env : CrawlEnv) (maxDepth : Nat) :
    Nat → Nat → List PageNode → List Nat → Int → List PageNode
  | 0, _, _, _, _ => []
  | lvls + 1, depth, frontier, sched, gen =>
    let ts := bfsTasks frontier
    let r := bfsProcess env maxDepth depth ts.length ts sched gen
    if r.stopped then r.emitted
    else r.emitted ++ bfsLevels env maxDepth lvls (depth + 1) r.next r.sched r.gen

/-- Models `BredthFirstCrawl._crawl` started from a list of current nodes. -/
def bfsRunList (env : CrawlEnv) (maxDepth : Nat) (start : List PageNode)
    (sched : List Nat) (gen : Int) : List PageNode :=
  bfsLevels env maxDepth maxDepth 1 start sched gen

/-!  ## `BredthFirstCrawl._get_unfinished_nodes` -/

/-- Sort key `lambda k: k.id`. -/
def nodeIdLe (a b : PageNode) : Bool := a.id ≤ b.id

/-- Python 2 comparison of the `parent` key: `None` sorts before any int. -/
def keyLtOptInt : Option Int → Option Int → Bool
  | none, none => false
  | none, some _ => true
  | some _, none => false
  | some a, some b => a < b

/-- Sort key `lambda n: (n.parent, n.id)` of the output buffer. -/
def pnodeParentIdLe (a b : PageNode) : Bool :=
  keyLtOptInt a.parent b.parent || (a.parent == b.parent && a.id ≤ b.id)

/-- Sort key `lambda k: (k.depth, k.parent, k.id)` of the resume frontier. -/
def key3Le (a b : PageNode) : Bool :=
  decide (a.depth < b.depth) || (a.depth == b.depth && pnodeParentIdLe a b)

/-- A Python list index (negative indices wrap; out of range raises). -/
def pyIndex (len : Nat) (i : Int) : Option Nat :=
  if 0 ≤ i then (if i.toNat < len then some i.toNat else none)
  else (if i.natAbs ≤ len then some (len - i.natAbs) else none)

/-- The `while idx > 0 and nodes[idx]` loop: null out `nodes[nodes[idx].parent]`,
then null out `nodes[idx]` when it is already at `max_depth` (the `else`
branch only sets `end_phrase`, which changes nothing modelled).  The source
re-reads `nodes[idx]` after the parent write, so a self-parenting entry
raises `AttributeError` (`None.depth`); `nodes[None]` raises `TypeError`,
and an id outside the list raises `IndexError`. -/
def bguLoop (maxDepth : Nat) :
    List (Option PageNode) → Nat → Except PyErr (List (Option PageNode) × Nat)
  | arr, 0 => .ok (arr, 0)
  | arr, idx + 1 =>
    match arr.getD (idx + 1) none with
    | none => .ok (arr, idx + 1)
    | some nd =>
      match nd.parent with
      | none => .error .typeError
      | some p =>
        match pyIndex arr.length p with
        | none => .error .indexError
        | some pi =>
          let arr1 := arr.set pi none
          match arr1.getD (idx + 1) none with
          | none => .error .attributeError
          | some nd2 =>
            bguLoop maxDepth
              (if nd2.depth = maxDepth then arr1.set (idx + 1) none else arr1) idx

/-- Models `BredthFirstCrawl._get_unfinished_nodes` on the stored page nodes:
sort by id, run the backward nulling scan from the last index, keep the
non-null survivors from the stop index on, and sort them by
`(depth, parent, id)`.  (On an empty store the final comprehension starts at
index `-1` and raises `IndexError`.) -/
def bfsGetUnfinishedNodes (maxDepth : Nat) (nodes : List PageNode) :
    Except PyErr (List PageNode) :=
  let sorted := insSort nodeIdLe nodes
  let arr : List (Option PageNode) := sorted.map some
  if arr.isEmpty then .error .indexError
  else
    match bguLoop maxDepth arr (arr.length - 1) with
    | .error e => .error e
    | .ok (arr2, idx) => .ok (insSort key3Le ((arr2.drop idx).filterMap id))

/-- Is this entry the `TerminationSentinal`? -/
def entryIsSentinel : Entry → Bool
  | .node _ => false
  | .sentinel => true

/-- The stored entries of a finished job include the sentinel; the sort key
`lambda k: k.id` then touches `.id` of the sentinel and raises
`AttributeError` before anything else happens. -/
def bfsGetUnfinished (maxDepth : Nat) (stored : List Entry) :
    Except PyErr (List PageNode) :=
  if stored.any entryIsSentinel then .error .attributeError
  else
    bfsGetUnfinishedNodes maxDepth
      (stored.filterMap (fun e => match e with | .node n => some n | .sentinel => none))

/-!  ## The output pipeline (`Crawler.__call__` and
`crawler_output_to_datastore`) -/

/-- Page nodes as batch entries. -/
def nodeEntries (l : List PageNode) : List Entry := l.map Entry.node

/-- Models `output_buffer.sort(key=lambda n: (n.parent, n.id))`. -/
def sortParentId : List PageNode → List PageNode := insSort pnodeParentIdLe

/-- The 50-entry sharding of `crawler_output_to_datastore` (fuel variant of
`for i in range(0, len(output_list), 50)`). -/
def chunkAux : Nat → List Entry → List (List Entry)
  | 0, _ => []
  | fuel + 1, l => if l.isEmpty then [] else l.take 50 :: chunkAux fuel (l.drop 50)

/-- Models `crawler_output_to_datastore`: one stored record per 50 entries. -/
def crawlerOutputToDatastore (output_list : List Entry) : List (List Entry) :=
  chunkAux (output_list.length + 1) output_list

/-- The consuming loop plus the `finally` block of `Crawler.__call__`.
`flushAfter i` says whether the 1.5-second timer has fired after the `i`-th
yielded node was buffered (the wall clock is external, so it is a free
choice).  Every flush sorts the buffer by `(parent, id)` and shards it; the
`finally` block sorts the remaining buffer, appends one `TerminationSentinal`
and flushes once more.  The list of all stored records is returned. -/
def driverLoop (flushAfter : Nat → Bool) :
    List PageNode → Nat → List PageNode → List (List Entry)
  | [], _, buf =>
    crawlerOutputToDatastore (nodeEntries (sortParentId buf) ++ [Entry.sentinel])
  | n :: rest, i, buf =>
    if flushAfter i then
      crawlerOutputToDatastore (nodeEntries (sortParentId (buf ++ [n])))
        ++ driverLoop flushAfter rest (i + 1) []
    else driverLoop flushAfter rest (i + 1) (buf ++ [n])

/-- The driver around a finished producer run.  The `except` clause only
logs, so the exit status of the producer is irrelevant to finalization: the
`finally` block always appends the sentinel and flushes. -/
def driverFinish (produced : List PageNode × CrawlExit) (flushAfter : Nat → Bool) :
    List (List Entry) :=
  driverLoop flushAfter produced.1 0 []

/-- Models `max(n.id for n in root) if root else 0`. -/
def maxId : List PageNode → Int
  | [] => 0
  | x :: xs => xs.foldl (fun m n => max m n.id) x.id

/-- Models `Crawler.__call__` on a resumed (list) root: return immediately when the
list contains the sentinel (`TerminationSentinal in root`); otherwise seed
`IDGenerator(last_id + 1)` and drive the strategy to completion.  The value
returned is the list of batches written to the result store. -/
def crawlerCallResume (resumeRoot : List Entry)
    (run : List PageNode → Int → List PageNode × CrawlExit)
    (flushAfter : Nat → Bool) : List (List Entry) :=
  if resumeRoot.any entryIsSentinel then []
  else
    let ns := resumeRoot.filterMap
      (fun e => match e with | .node n => some n | .sentinel => none)
    driverFinish (run ns (idGenInit (maxId ns + 1))) flushAfter

/-- Models `Crawler.__call__` on a fresh root node: `self.id_gen = IDGenerator()`. -/
def crawlerCallFresh (run : PageNode → Int → List PageNode × CrawlExit)
    (root : PageNode) (flushAfter : Nat → Bool) : List (List Entry) :=
  driverFinish (run root (idGenInit 1)) flushAfter

/-- The final entry of the final stored batch. -/
def lastBatchLast (batches : List (List Entry)) : Option Entry :=
  batches.getLast?.bind List.getLast?

/-!  ## Definitions taken from the specification's words (for refinement
comparisons only; everything above is translated from the source). -/

/-- Modelled from the spec: the BFS restart frontier as claim C4 words it —
from the stored nodes sorted by id, exclude every node that appears as some
node's parent and every node already at `max_depth`; sort the survivors by
`(depth, parent, id)`. -/
def bfsResumeFrontierSpec (maxDepth : Nat) (stored : List PageNode) : List PageNode :=
  let sorted := insSort nodeIdLe stored
  insSort key3Le (sorted.filter (fun nd =>
    !(sorted.any (fun m => m.parent == some nd.id)) && !(nd.depth == maxDepth)))

/-- Modelled from the spec: URL normalization as claim C9 words it — strip a
leading `//`, prepend `http://` whenever no scheme is present. -/
def normalizeUrlSpec (url : String) : String :=
  let u := if pyStartsWith url "//" then String.mk (url.data.drop 2) else url
  if pyStartsWith u "http://" || pyStartsWith u "https://" then u else "http://" ++ u

/-!  ## The emission-stream invariant of claim C2 -/

/-- Every node of the stream that carries a parent id is preceded in the
stream by a node with that id whose depth is one less. -/
def ParentWitnessed (stream : List PageNode) : Prop :=
  ∀ i, i < stream.length → ∀ pid, (stream.getD i default).parent = some pid →
    ∃ j, j < i ∧ (stream.getD j default).id = pid ∧
      (stream.getD j default).depth + 1 = (stream.getD i default).depth

/-- Relative form used in the induction: every element of `out` whose parent
is `pid` has a witness among `pre` and the part of `out` before it. -/
def WitnessedFrom (pre out : List PageNode) : Prop :=
  ∀ k, k < out.length → ∀ pid, (out.getD k default).parent = some pid →
    ∃ m ∈ pre ++ out.take k, m.id = pid ∧
      m.depth + 1 = (out.getD k default).depth

/-!  ## Concrete instances used by counterexamples and witnesses -/

/-- A stored page node (as rehydrated from a result batch). -/
def storedNode (i : Int) (d : Nat) (p : Option Int) : PageNode :=
  ⟨i, d, p, "http://u.test", [], false, none⟩

/-- The five-node store of claim C4 / scenario S6: ids `[0,1,2,3,4]`, depths
`[0,1,1,2,2]`, parents `[null,0,0,1,2]`. -/
def stored5 : List PageNode :=
  [storedNode 0 0 none, storedNode 1 1 (some 0), storedNode 2 1 (some 0),
   storedNode 3 2 (some 1), storedNode 4 2 (some 2)]

/-- A four-node store: ids `[0,1,2,3]`, depths `[0,1,1,2]`, parents
`[null,0,0,2]` — node 1 is nobody's parent and below `max_depth`. -/
def stored4 : List PageNode :=
  [storedNode 0 0 none, storedNode 1 1 (some 0), storedNode 2 1 (some 0),
   storedNode 3 2 (some 2)]

/-- Environment for the C3 counterexample: `http://localhost` serves a page
(status 200) but its host does not match `host_regex`. -/
def envC3 : CrawlEnv :=
  ⟨fun u => if u = "http://localhost" then some ⟨200, ""⟩ else none, fun _ => none⟩

/-- Environment for the C6 counterexample: the fetched page carries the same
anchor twice. -/
def envC6 : CrawlEnv :=
  ⟨fun u => if u = "http://h.test" then
      some ⟨200, "<a href=\"http://x.test/\"> <a href=\"http://x.test/\">"⟩
    else none, fun _ => none⟩

/-- The node built by `envC6` (id 1 from the generator, both duplicate
cross-host links kept). -/
def nodeC6 : PageNode :=
  ⟨1, 0, none, "http://h.test", ["http://x.test/", "http://x.test/"], false, none⟩

/-- Environment for the C10 counterexample: `/favicon.ico` 404s with a body
whose icon link points back at `/favicon.ico`. -/
def envFav404 : FavEnv :=
  ⟨fun u => if u = "http://h.test/favicon.ico" then
      some ⟨404, "<link rel=\"icon\" href=\"/favicon.ico\">"⟩
    else none, fun _ => "d41d8"⟩

/-- An environment whose every fetch fails (used by witnesses). -/
def envDead : CrawlEnv := ⟨fun _ => none, fun _ => none⟩

/-- A seed whose single link is unreachable (C8 witness). -/
def rootDead : PageNode :=
  ⟨0, 0, none, "http://seed.test", ["dead.test"], false, none⟩

/-!  ## List lemmas -/

theorem getD_append_left {α : Type _} (d : α) :
    ∀ (l1 l2 : List α) (j : Nat), j < l1.length → (l1 ++ l2).getD j d = l1.getD j d := by
  intro l1
  induction l1 with
  | nil => intro l2 j h; simp at h
  | cons x xs ih =>
    intro l2 j h
    cases j with
    | zero => rfl
    | succ j => exact ih l2 j (by simpa using h)

theorem getD_append_len {α : Type _} (d : α) :
    ∀ (l1 : List α) (a : α), (l1 ++ [a]).getD l1.length d = a := by
  intro l1
  induction l1 with
  | nil => intro a; rfl
  | cons x xs ih =>
    intro a
    show (xs ++ [a]).getD xs.length d = a
    exact ih a

theorem getD_set_self {α : Type _} (d : α) :
    ∀ (l : List α) (i : Nat) (a : α), i < l.length → (l.set i a).getD i d = a := by
  intro l
  induction l with
  | nil => intro i a h; simp at h
  | cons x xs ih =>
    intro i a h
    cases i with
    | zero => rfl
    | succ i => exact ih i a (by simpa using h)

theorem getD_set_ne {α : Type _} (d : α) :
    ∀ (l : List α) (i j : Nat) (a : α), i ≠ j → (l.set i a).getD j d = l.getD j d := by
  intro l
  induction l with
  | nil => intro i j a _; simp [List.set]
  | cons x xs ih =>
    intro i j a hij
    cases i with
    | zero =>
      cases j with
      | zero => exact absurd rfl hij
      | succ j => rfl
    | succ i =>
      cases j with
      | zero => rfl
      | succ j => exact ih i j a (fun he => hij (by rw [he]))

theorem getD_mem {α : Type _} (d : α) :
    ∀ (l : List α) (i : Nat), i < l.length → l.getD i d ∈ l := by
  intro l
  induction l with
  | nil => intro i h; simp at h
  | cons x xs ih =>
    intro i h
    cases i with
    | zero => exact List.mem_cons_self x xs
    | succ i => exact List.mem_cons_of_mem x (ih i (by simpa using h))

theorem mem_getD_of_mem {α : Type _} (d : α) :
    ∀ (l : List α) (x : α), x ∈ l → ∃ i, i < l.length ∧ l.getD i d = x := by
  intro l
  induction l with
  | nil => intro x h; simp at h
  | cons y ys ih =>
    intro x h
    rcases List.mem_cons.mp h with he | hm
    · exact ⟨0, by simp, he.symm⟩
    · obtain ⟨i, hi, he⟩ := ih x hm
      exact ⟨i + 1, by simpa using hi, he⟩

theorem getD_take {α : Type _} (d : α) :
    ∀ (l : List α) (k j : Nat), j < k → (l.take k).getD j d = l.getD j d := by
  intro l
  induction l with
  | nil => intro k j _; simp
  | cons x xs ih =>
    intro k j hj
    cases k with
    | zero => simp at hj
    | succ k =>
      cases j with
      | zero => rfl
      | succ j => exact ih k j (by omega)

/-!  ## Sharding and driver lemmas (claim C1) -/

theorem chunkAux_flatten :
    ∀ (fuel : Nat) (l : List Entry), l.length < fuel → (chunkAux fuel l).flatten = l := by
  intro fuel
  induction fuel with
  | zero => intro l h; simp at h
  | succ fuel ih =>
    intro l h
    rw [chunkAux]
    by_cases he : l.isEmpty
    · simp [he, List.isEmpty_iff.mp he]
    · rw [if_neg he]
      simp only [List.flatten_cons]
      rw [ih (l.drop 50) (by
        have : l.length ≠ 0 := by
          intro h0
          exact he (List.isEmpty_iff.mpr (List.length_eq_zero.mp h0))
        simp only [List.length_drop]
        omega)]
      exact List.take_append_drop 50 l

theorem crawlerOutputToDatastore_flatten (l : List Entry) :
    (crawlerOutputToDatastore l).flatten = l :=
  chunkAux_flatten (l.length + 1) l (Nat.lt_succ_self _)

theorem getLast?_cons_ne_nil {α : Type _} (x : α) (L : List α) (h : L ≠ []) :
    (x :: L).getLast? = L.getLast? := by
  cases hb : L.getLast? with
  | none => exact absurd (List.getLast?_eq_none_iff.mp hb) h
  | some b =>
    rw [show x :: L = [x] ++ L from rfl, List.getLast?_append, hb]
    rfl

theorem chunkAux_lastBatchLast :
    ∀ (fuel : Nat) (l : List Entry), l.length < fuel → l ≠ [] →
      lastBatchLast (chunkAux fuel l) = l.getLast? := by
  intro fuel
  induction fuel with
  | zero => intro l h _; simp at h
  | succ fuel ih =>
    intro l h hne
    rw [chunkAux]
    have he : ¬(l.isEmpty = true) := by
      cases l with
      | nil => exact absurd rfl hne
      | cons x xs => simp
    rw [if_neg he]
    by_cases hd : l.drop 50 = []
    · have : chunkAux fuel (l.drop 50) = [] := by
        cases fuel with
        | zero => rfl
        | succ fuel => rw [chunkAux]; simp [hd]
      rw [this]
      have hlen : l.length ≤ 50 := by
        have := List.length_drop (l := l) 50
        rw [hd] at this
        simp at this
        omega
      simp [lastBatchLast, List.take_of_length_le hlen]
    · have hck : chunkAux fuel (l.drop 50) ≠ [] := by
        cases fuel with
        | zero =>
          exfalso
          have : l.length ≠ 0 := fun h0 => hne (List.length_eq_zero.mp h0)
          omega
        | succ fuel =>
          rw [chunkAux]
          have : (l.drop 50).isEmpty = false := by
            cases hcc : l.drop 50 with
            | nil => exact absurd hcc hd
            | cons x xs => rfl
          simp [this]
      have hrec := ih (l.drop 50) (by
        have : l.length ≠ 0 := fun h0 => hne (List.length_eq_zero.mp h0)
        simp only [List.length_drop]
        omega) hd
      unfold lastBatchLast at hrec ⊢
      rw [getLast?_cons_ne_nil _ _ hck, hrec]
      have : l = l.take 50 ++ l.drop 50 := (List.take_append_drop 50 l).symm
      conv_rhs => rw [this]
      rw [List.getLast?_append]
      cases hg : (l.drop 50).getLast? with
      | none => exact absurd (List.getLast?_eq_none_iff.mp hg) hd
      | some x => rfl

theorem crawlerOutputToDatastore_lastBatchLast (l : List Entry) (hne : l ≠ []) :
    lastBatchLast (crawlerOutputToDatastore l) = l.getLast? :=
  chunkAux_lastBatchLast (l.length + 1) l (Nat.lt_succ_self _) hne

theorem nodeEntries_count_sentinel (l : List PageNode) :
    (nodeEntries l).count Entry.sentinel = 0 := by
  induction l with
  | nil => rfl
  | cons x xs ih =>
    simp only [nodeEntries, List.map_cons] at *
    rw [List.count_cons, ih]
    simp

theorem driverLoop_count (flushAfter : Nat → Bool) :
    ∀ (ys : List PageNode) (i : Nat) (buf : List PageNode),
      (driverLoop flushAfter ys i buf).flatten.count Entry.sentinel = 1 := by
  intro ys
  induction ys with
  | nil =>
    intro i buf
    rw [driverLoop, crawlerOutputToDatastore_flatten, List.count_append,
      nodeEntries_count_sentinel]
    rfl
  | cons n rest ih =>
    intro i buf
    rw [driverLoop]
    by_cases hf : flushAfter i
    · simp only [hf, if_true]
      rw [List.flatten_append, List.count_append, crawlerOutputToDatastore_flatten,
        nodeEntries_count_sentinel, ih]
    · simp only [hf, if_false]
      exact ih (i + 1) (buf ++ [n])

theorem driverLoop_last (flushAfter : Nat → Bool) :
    ∀ (ys : List PageNode) (i : Nat) (buf : List PageNode),
      lastBatchLast (driverLoop flushAfter ys i buf) = some Entry.sentinel := by
  intro ys
  induction ys with
  | nil =>
    intro i buf
    rw [driverLoop]
    have h1 : (nodeEntries (sortParentId buf) ++ [Entry.sentinel]).getLast? =
        some Entry.sentinel := by
      rw [List.getLast?_append]
      rfl
    rw [crawlerOutputToDatastore_lastBatchLast _ (by simp), h1]
  | cons n rest ih =>
    intro i buf
    rw [driverLoop]
    by_cases hf : flushAfter i
    · simp only [hf, if_true]
      unfold lastBatchLast at ih ⊢
      rw [List.getLast?_append]
      have hne : driverLoop flushAfter rest (i + 1) [] ≠ [] := by
        intro h0
        have := ih (i + 1) []
        rw [h0] at this
        simp [lastBatchLast] at this
      cases hg : (driverLoop flushAfter rest (i + 1) []).getLast? with
      | none => exact absurd (List.getLast?_eq_none_iff.mp hg) hne
      | some b =>
        have := ih (i + 1) []
        rw [hg] at this
        simpa using this
    · simp only [hf, if_false]
      exact ih (i + 1) (buf ++ [n])

/-- Claim C1: exactly one terminal sentinel is written per job and it is the
last entry of the last stored batch.  The driver's `finally` block runs
whatever the producer's exit status (normal, a strategy error — the
`except` only logs), so one completed invocation stores exactly one
sentinel, last in the last batch.  A restarted invocation of an
already-finished job stores nothing: with a DFS resume list the
`TerminationSentinal in root` check returns before the output loop, and a
BFS resume crashes in `_get_unfinished_nodes` (the id sort key touches the
stored sentinel) before the output loop starts. -/
theorem crawler_sentinel_exactly_once :
    ∀ (yielded : List PageNode) (ex : CrawlExit) (flushAfter : Nat → Bool)
      (resumeRoot : List Entry) (run : List PageNode → Int → List PageNode × CrawlExit)
      (flushAfter2 : Nat → Bool) (stored : List Entry) (d : Nat),
      (driverFinish (yielded, ex) flushAfter).flatten.count Entry.sentinel = 1
      ∧ lastBatchLast (driverFinish (yielded, ex) flushAfter) = some Entry.sentinel
      ∧ (Entry.sentinel ∈ resumeRoot →
          crawlerCallResume resumeRoot run flushAfter2 = [])
      ∧ (Entry.sentinel ∈ stored → bfsGetUnfinished d stored = .error .attributeError) := by
  intro yielded ex flushAfter resumeRoot run flushAfter2 stored d
  refine ⟨driverLoop_count flushAfter yielded 0 [], driverLoop_last flushAfter yielded 0 [], ?_, ?_⟩
  · intro hmem
    unfold crawlerCallResume
    have : resumeRoot.any entryIsSentinel = true := by
      rw [List.any_eq_true]
      exact ⟨Entry.sentinel, hmem, rfl⟩
    simp [this]
  · intro hmem
    unfold bfsGetUnfinished
    have : stored.any entryIsSentinel = true := by
      rw [List.any_eq_true]
      exact ⟨Entry.sentinel, hmem, rfl⟩
    simp [this]

/-- Witness for C1 at a concrete run: two yielded nodes with a flush after
the first, a resume list holding a sentinel, and a stored batch holding a
sentinel. -/
theorem crawler_sentinel_exactly_once_witness :
    (driverFinish ([rootDead, nodeC6], CrawlExit.err .typeError) (fun i => i == 0)).flatten.count
        Entry.sentinel = 1
    ∧ lastBatchLast (driverFinish ([rootDead, nodeC6], CrawlExit.err .typeError)
        (fun i => i == 0)) = some Entry.sentinel
    ∧ crawlerCallResume [Entry.node rootDead, Entry.sentinel]
        (fun _ _ => ([], .normal)) (fun _ => false) = []
    ∧ bfsGetUnfinished 3 [Entry.node rootDead, Entry.sentinel] = .error .attributeError := by
  have h := crawler_sentinel_exactly_once [rootDead, nodeC6] (CrawlExit.err .typeError)
    (fun i => i == 0) [Entry.node rootDead, Entry.sentinel]
    (fun _ _ => ([], .normal)) (fun _ => false) [Entry.node rootDead, Entry.sentinel] 3
  exact ⟨h.1, h.2.1, h.2.2.1 (by decide), h.2.2.2 (by decide)⟩

/-!  ## Factory lemmas (claims C3, C6, C9) -/

theorem makePagenode_fetchFails (env : CrawlEnv) (idArg : IdArg) (gen : Int)
    (url : String) (par : Option PageNode) (h : fetchFails env url) :
    makePagenode env idArg gen url par = .ok (none, gen) := by
  unfold fetchFails at h
  cases hf : env.fetch (normalizeUrl url) with
  | none => simp only [makePagenode, pageNodeInit, pageLoad, hf]
  | some res =>
    rw [hf] at h
    simp only [makePagenode, pageNodeInit, pageLoad, hf, if_pos h]

theorem makePagenode_none_gen (env : CrawlEnv) (gen : Int) (url : String)
    (par : Option PageNode) (g' : Int)
    (h : makePagenode env .callable gen url par = .ok (none, g')) : g' = gen := by
  unfold makePagenode at h
  cases hpi : pageNodeInit env .callable gen url par with
  | error e =>
    rw [hpi] at h
    cases e <;> simp_all
  | ok v =>
    rw [hpi] at h
    simp at h

theorem makePagenode_ok_shape (env : CrawlEnv) (gen : Int) (url : String)
    (par : Option PageNode) (n : PageNode) (g' : Int)
    (h : makePagenode env .callable gen url par = .ok (some n, g')) :
    n.id = gen + 1 ∧ g' = gen + 1 ∧ n.url = normalizeUrl url
    ∧ n.parent = par.map PageNode.id
    ∧ n.depth = (match par with | some p => p.depth + 1 | none => 0)
    ∧ n.phrase_found = false
    ∧ ∃ res host, env.fetch (normalizeUrl url) = some res ∧ res.status_code = 200
        ∧ getHost (normalizeUrl url) = some host
        ∧ n.links = (extractLinks res.content).filter (fun l => !(pyStartsWith l host)) := by
  cases hf : env.fetch (normalizeUrl url) with
  | none =>
    simp only [makePagenode, pageNodeInit, pageLoad, hf] at h
    simp at h
  | some res =>
    by_cases hs : res.status_code ≠ 200
    · simp only [makePagenode, pageNodeInit, pageLoad, hf, if_pos hs] at h
      simp at h
    · cases hg : getHost (normalizeUrl url) with
      | none =>
        simp only [makePagenode, pageNodeInit, pageLoad, hf, if_neg hs, hg] at h
        simp at h
      | some host =>
        have hs2 : res.status_code = 200 := by simpa using hs
        cases par with
        | none =>
          simp only [makePagenode, pageNodeInit, pageLoad, hf, if_neg hs, hg,
            Except.ok.injEq, Option.some.injEq, Prod.mk.injEq] at h
          obtain ⟨rfl, rfl⟩ := h
          exact ⟨rfl, rfl, rfl, rfl, rfl, rfl, res, host, rfl, hs2, rfl, rfl⟩
        | some p =>
          simp only [makePagenode, pageNodeInit, pageLoad, hf, if_neg hs, hg,
            Except.ok.injEq, Option.some.injEq, Prod.mk.injEq] at h
          obtain ⟨rfl, rfl⟩ := h
          exact ⟨rfl, rfl, rfl, rfl, rfl, rfl, res, host, rfl, hs2, rfl, rfl⟩

/-- Counterexample to claim C3 as stated: a link whose page loads with
status 200 but whose URL does not match `host_regex` (here
`http://localhost`, which has no dotted label) makes `load`'s
`get_host(self.url)` call raise `AttributeError` — which
`make_pagenode` does not catch — instead of returning a null result. -/
theorem make_pagenode_raises_counterexample :
    makePagenode envC3 .callable 0 "localhost" none = .error .attributeError := rfl

/-- Claim C3, amended: failures the factory signals as `TypeError` (fetch
failure or non-200 status) or `UnicodeEncodeError` yield a null result and
consume no id; the id is allocated only after the page loads, so a
successful build returns exactly the next id; but a failure raising any
other exception (such as `get_host`'s `AttributeError` on a successfully
fetched URL whose host does not match the host pattern) propagates out of
the factory. -/
theorem make_pagenode_failure_null_and_id_after_load :
    ∀ (env : CrawlEnv) (gen : Int) (url : String) (par : Option PageNode),
      (fetchFails env url → makePagenode env .callable gen url par = .ok (none, gen))
      ∧ (∀ g', makePagenode env .callable gen url par = .ok (none, g') → g' = gen)
      ∧ (∀ n g', makePagenode env .callable gen url par = .ok (some n, g') →
          n.id = gen + 1 ∧ g' = gen + 1) := by
  intro env gen url par
  refine ⟨fun h => makePagenode_fetchFails env .callable gen url par h,
    fun g' h => makePagenode_none_gen env gen url par g' h,
    fun n g' h => ?_⟩
  have := makePagenode_ok_shape env gen url par n g' h
  exact ⟨this.1, this.2.1⟩

/-- Witness for C3 at concrete inputs: a dead URL consumes no id, and the
successful build of `envC6` allocates exactly id 1. -/
theorem make_pagenode_failure_null_witness :
    makePagenode envDead .callable 5 "dead.test" none = .ok (none, 5)
    ∧ nodeC6.id = 0 + 1 := by
  have h1 := (make_pagenode_failure_null_and_id_after_load envDead 5 "dead.test" none).1
    (by decide)
  have h2 := ((make_pagenode_failure_null_and_id_after_load envC6 0 "http://h.test" none).2.2
    nodeC6 1 rfl)
  exact ⟨h1, h2.1⟩

/-- Counterexample to claim C9 as stated: the code prepends `http://` only
when the URL does not start with the string `http`, not whenever no scheme
is present; `httpx.com` is left without any scheme, where the claimed
normalization would produce `http://httpx.com`. -/
theorem normalize_url_spec_counterexample :
    normalizeUrl "httpx.com" = "httpx.com"
    ∧ normalizeUrlSpec "httpx.com" = "http://httpx.com"
    ∧ normalizeUrl "httpx.com" ≠ normalizeUrlSpec "httpx.com" := by
  refine ⟨by decide, by decide, by decide⟩

theorem getHost_scheme (u : String) (host : String) (h : getHost u = some host) :
    ciStartsWith u "http://" = true ∨ ciStartsWith u "https://" = true := by
  by_cases h1 : ciListPre "https://".data u.data
  · exact Or.inr h1
  · by_cases h2 : ciListPre "http://".data u.data
    · exact Or.inl h2
    · rw [Bool.not_eq_true] at h1 h2
      simp only [getHost, h1, h2, Bool.false_eq_true, if_false] at h
      simp at h

/-- Claim C9, amended: normalization strips a leading `//` and prepends
`http://` exactly when the URL does not start with the string `http` (so a
URL such as `httpx.com` stays scheme-less); nevertheless every successfully
constructed page node's url does begin with `http://` or `https://`
(case-insensitively), because `load` requires `host_regex` — which is
anchored on a scheme — to match the stored url. -/
theorem constructed_url_scheme :
    ∀ (env : CrawlEnv) (gen : Int) (url : String) (par : Option PageNode)
      (n : PageNode) (g' : Int),
      makePagenode env .callable gen url par = .ok (some n, g') →
      ciStartsWith n.url "http://" = true ∨ ciStartsWith n.url "https://" = true := by
  intro env gen url par n g' h
  have hs := makePagenode_ok_shape env gen url par n g' h
  obtain ⟨-, -, hurl, -, -, -, res, host, -, -, hhost, -⟩ := hs
  rw [← hurl] at hhost
  exact getHost_scheme n.url host hhost

/-- Witness for C9: the node built by `envC6` starts with `http://`. -/
theorem constructed_url_scheme_witness :
    ciStartsWith nodeC6.url "http://" = true ∨ ciStartsWith nodeC6.url "https://" = true :=
  constructed_url_scheme envC6 0 "http://h.test" none nodeC6 1 rfl

/-- Counterexample to claim C6 as stated: `load` never de-duplicates — a
page carrying the same cross-host anchor twice produces a node whose
`links` list holds the same URL twice. -/
theorem links_duplicate_counterexample :
    makePagenode envC6 .callable 0 "http://h.test" none = .ok (some nodeC6, 1)
    ∧ nodeC6.links = ["http://x.test/", "http://x.test/"]
    ∧ ¬ nodeC6.links.Nodup := by
  refine ⟨rfl, rfl, by decide⟩

/-- Claim C6, amended: after fetch-and-parse, the node's `links` list
contains no URL that starts with the fetched page's own host (links are
filtered against `get_host(self.url)`), but the remainder is NOT
de-duplicated: a URL may occur several times. -/
theorem links_host_filtered :
    ∀ (env : CrawlEnv) (gen : Int) (url : String) (par : Option PageNode)
      (n : PageNode) (g' : Int),
      makePagenode env .callable gen url par = .ok (some n, g') →
      ∃ host, getHost n.url = some host ∧
        ∀ l ∈ n.links, pyStartsWith l host = false := by
  intro env gen url par n g' h
  have hs := makePagenode_ok_shape env gen url par n g' h
  obtain ⟨-, -, hurl, -, -, -, res, host, -, -, hhost, hlinks⟩ := hs
  refine ⟨host, by rw [hurl]; exact hhost, ?_⟩
  intro l hl
  rw [hlinks] at hl
  have := List.of_mem_filter hl
  simpa using this

/-- Witness for C6: the links of the concrete `envC6` node avoid its host. -/
theorem links_host_filtered_witness :
    ∃ host, getHost nodeC6.url = some host ∧
      ∀ l ∈ nodeC6.links, pyStartsWith l host = false :=
  links_host_filtered envC6 0 "http://h.test" none nodeC6 1 rfl

/-!  ## Claim C4 — BFS resume -/

/-- Counterexample to claim C4 as stated: on the store with ids `[0,1,2,3]`,
depths `[0,1,1,2]`, parents `[null,0,0,2]` and `max_depth` 3, node 1 is
nobody's parent and below `max_depth`, so the claimed rule keeps it; but
the backward scan of `_get_unfinished_nodes` stops at the first entry
already nulled as a parent (index 2) and drops node 1 together with
everything below the stop index. -/
theorem bfs_resume_frontier_spec_counterexample :
    bfsGetUnfinishedNodes 3 stored4 = .ok [storedNode 3 2 (some 2)]
    ∧ bfsResumeFrontierSpec 3 stored4 = [storedNode 1 1 (some 0), storedNode 3 2 (some 2)]
    ∧ [storedNode 3 2 (some 2)] ≠ [storedNode 1 1 (some 0), storedNode 3 2 (some 2)] :=
  ⟨rfl, rfl, by decide⟩

/-- Claim C4, amended: the scan walks the id-sorted store from the highest
id downwards, nulling each visited node's parent entry and each visited
node already at `max_depth`, and stops at the first entry already nulled
(or at the seed); the surviving non-null entries from the stop index on,
sorted by `(depth, parent, id)`, are the restart frontier — entries below
the stop index are dropped even when unexpanded.  On the claim's concrete
store (ids `[0..4]`, depths `[0,1,1,2,2]`, parents `[null,0,0,1,2]`,
`max_depth` 3) this yields exactly nodes 3 and 4, nodes 0, 1, 2 are not in
the frontier, and the driver seeds `IDGenerator(max stored id + 1)`, whose
first call returns 5. -/
theorem bfs_resume_frontier_concrete :
    bfsGetUnfinishedNodes 3 stored5 = .ok [storedNode 3 2 (some 1), storedNode 4 2 (some 2)]
    ∧ maxId stored5 = 4
    ∧ idGenInit (maxId stored5 + 1) = 4
    ∧ idGenCall (idGenInit (maxId stored5 + 1)) = (5, 5)
    ∧ ∀ (run : List PageNode → Int → List PageNode × CrawlExit) (flushAfter : Nat → Bool),
        crawlerCallResume (nodeEntries stored5) run flushAfter =
          driverFinish (run stored5 (idGenInit (maxId stored5 + 1))) flushAfter :=
  ⟨rfl, rfl, rfl, rfl, fun _ _ => rfl⟩

/-!  ## Claim C7 — id allocation -/

theorem makePagenode_value_shape (env : CrawlEnv) (i gen : Int) (url : String)
    (par : Option PageNode) (n : PageNode) (g' : Int)
    (h : makePagenode env (.value i) gen url par = .ok (some n, g')) :
    n.id = i ∧ g' = gen := by
  cases hf : env.fetch (normalizeUrl url) with
  | none =>
    simp only [makePagenode, pageNodeInit, pageLoad, hf] at h
    simp at h
  | some res =>
    by_cases hs : res.status_code ≠ 200
    · simp only [makePagenode, pageNodeInit, pageLoad, hf, if_pos hs] at h
      simp at h
    · cases hg : getHost (normalizeUrl url) with
      | none =>
        simp only [makePagenode, pageNodeInit, pageLoad, hf, if_neg hs, hg] at h
        simp at h
      | some host =>
        cases par with
        | none =>
          simp only [makePagenode, pageNodeInit, pageLoad, hf, if_neg hs, hg,
            Except.ok.injEq, Option.some.injEq, Prod.mk.injEq] at h
          obtain ⟨rfl, rfl⟩ := h
          exact ⟨rfl, rfl⟩
        | some p =>
          simp only [makePagenode, pageNodeInit, pageLoad, hf, if_neg hs, hg,
            Except.ok.injEq, Option.some.injEq, Prod.mk.injEq] at h
          obtain ⟨rfl, rfl⟩ := h
          exact ⟨rfl, rfl⟩

/-- What one pass of the DFS inner link loop guarantees about the generator
counter and the built node. -/
theorem dfsTryLinks_shape (env : CrawlEnv) :
    ∀ (fuel : Nat) (links : List String) (cur : PageNode) (rand : List Nat) (gen : Int)
      (l' : List String) (b : Option PageNode) (r' : List Nat) (g' : Int) (e : Option PyErr),
      dfsTryLinks env fuel links cur rand gen = (l', b, r', g', e) →
      (b = none → g' = gen)
      ∧ (∀ n, b = some n → n.id = gen + 1 ∧ g' = gen + 1
          ∧ n.parent = some cur.id ∧ n.depth = cur.depth + 1) := by
  intro fuel
  induction fuel with
  | zero =>
    intro links cur rand gen l' b r' g' e h
    simp only [dfsTryLinks, Prod.mk.injEq] at h
    obtain ⟨rfl, rfl, rfl, rfl, rfl⟩ := h
    exact ⟨fun _ => rfl, fun n hn => by simp at hn⟩
  | succ fuel ih =>
    intro links cur rand gen l' b r' g' e h
    rw [dfsTryLinks] at h
    by_cases he : links.isEmpty
    · rw [if_pos he] at h
      simp only [Prod.mk.injEq] at h
      obtain ⟨rfl, rfl, rfl, rfl, rfl⟩ := h
      exact ⟨fun _ => rfl, fun n hn => by simp at hn⟩
    · rw [if_neg he] at h
      cases hmk : makePagenode env .callable gen
          (links.getD (rand.headD 0 % links.length) "") (some cur) with
      | error e2 =>
        rw [hmk] at h
        dsimp only at h
        simp only [Prod.mk.injEq] at h
        obtain ⟨rfl, rfl, rfl, rfl, rfl⟩ := h
        exact ⟨fun _ => rfl, fun n hn => by simp at hn⟩
      | ok v =>
        obtain ⟨b2, g2⟩ := v
        cases b2 with
        | some n2 =>
          rw [hmk] at h
          dsimp only at h
          simp only [Prod.mk.injEq] at h
          obtain ⟨rfl, rfl, rfl, rfl, rfl⟩ := h
          refine ⟨fun hn => by simp at hn, fun n hn => ?_⟩
          obtain rfl : n2 = n := by simpa using hn
          have hs := makePagenode_ok_shape env gen _ (some cur) _ _ hmk
          exact ⟨hs.1, hs.2.1, by simpa using hs.2.2.2.1, by simpa using hs.2.2.2.2.1⟩
        | none =>
          rw [hmk] at h
          dsimp only at h
          rw [makePagenode_none_gen env gen _ (some cur) g2 hmk] at h
          exact ih _ cur rand.tail gen _ _ _ _ _ h

/-- The node ids yielded by any DFS run ascend strictly from the generator
counter of the starting state. -/
theorem dfsRun_ids_ascend (env : CrawlEnv) (maxDepth : Nat) :
    ∀ (fuel : Nat) (st : DfsState),
      ascFrom st.gen ((dfsRun env maxDepth fuel st).1.map PageNode.id) = true := by
  intro fuel
  induction fuel with
  | zero => intro st; rfl
  | succ fuel ih =>
    intro st
    rw [dfsRun]
    by_cases hd : (st.node_list.getD st.curIdx default).depth < maxDepth
    · rw [if_pos hd]
      rcases htl : dfsTryLinks env (st.node_list.getD st.curIdx default).links.length
          (st.node_list.getD st.curIdx default).links (st.node_list.getD st.curIdx default)
          st.rand st.gen with ⟨l', b, r', g', e⟩
      have hshape := dfsTryLinks_shape env _ _ _ _ _ _ _ _ _ _ htl
      cases e with
      | some e2 => cases b <;> rfl
      | none =>
        cases b with
        | none =>
          dsimp only
          have hg : g' = st.gen := hshape.1 rfl
          subst hg
          cases (st.node_list.getD st.curIdx default).parent with
          | none => rfl
          | some p =>
            dsimp only
            exact ih ⟨st.node_list.set st.curIdx
              ⟨(st.node_list.getD st.curIdx default).id,
               (st.node_list.getD st.curIdx default).depth, some p,
               (st.node_list.getD st.curIdx default).url, l',
               (st.node_list.getD st.curIdx default).phrase_found,
               (st.node_list.getD st.curIdx default).favicon⟩, p.toNat, r', st.gen⟩
        | some n =>
          obtain ⟨hid, hg, -, -⟩ := hshape.2 n rfl
          subst hg
          dsimp only
          by_cases hpf : n.phrase_found = true
          · rw [if_pos hpf]
            simp only [List.map_cons, List.map_nil, ascFrom, hid]
            simp
          · rw [if_neg hpf]
            simp only [List.map_cons, ascFrom, hid]
            have := ih ⟨(st.node_list.set st.curIdx
                { st.node_list.getD st.curIdx default with links := l' }) ++ [n],
              (st.node_list.set st.curIdx
                { st.node_list.getD st.curIdx default with links := l' }).length, r', st.gen + 1⟩
            simp only [this]
            simp
    · rw [if_neg hd]; rfl

/-- Counterexample to claim C7 as stated: allocation is not strictly
monotonic process-wide, because every `Crawler.__call__` builds its own
`IDGenerator()` — two fresh generator instances (two jobs in one process)
both return 1 on their first call, so the combined allocation sequence does
not ascend. -/
theorem idgen_per_instance_counterexample :
    (idGenCall (idGenInit 1)).1 = 1 ∧ (idGenCall (idGenInit 1)).1 = 1
    ∧ ascFrom 0 [(idGenCall (idGenInit 1)).1, (idGenCall (idGenInit 1)).1] = false := by
  decide

/-- Claim C7, amended: within a single crawl, node ids are strictly
increasing and the seed has id 0; each call of an `IDGenerator` instance
increments its counter (under its lock) and returns the new value, so
allocation is strictly monotonic per generator instance — hence per crawl,
each crawl owning one generator — though not process-wide across jobs.  In
DFS the emission order coincides with the allocation order. -/
theorem idgen_monotonic_seed_zero_dfs_increasing :
    (∀ (s : Int) (k : Nat), ascFrom s (idGenCalls s k) = true)
    ∧ (∀ (env : CrawlEnv) (gen : Int) (url : String) (n : PageNode) (g' : Int),
        makePagenode env (.value 0) gen url none = .ok (some n, g') →
        n.id = 0 ∧ g' = gen)
    ∧ (∀ (env : CrawlEnv) (maxDepth fuel : Nat) (root : PageNode) (rand : List Nat),
        ascFrom (idGenInit 1) ((dfsRunFresh env maxDepth fuel root rand).1.map PageNode.id)
          = true) := by
  refine ⟨?_, ?_, ?_⟩
  · intro s k
    induction k generalizing s with
    | zero => rfl
    | succ k ih =>
      simp only [idGenCalls, idGenCall, ascFrom, ih]
      simp
  · intro env gen url n g' h
    exact makePagenode_value_shape env 0 gen url none n g' h
  · intro env maxDepth fuel root rand
    exact dfsRun_ids_ascend env maxDepth fuel ⟨[root], 0, rand, idGenInit 1⟩

/-- Witness for C7: the seed built by `start_crawler`'s
`make_pagenode(0, url)` over `envC6` has id 0, and the concrete DFS run of
`envDead` yields ascending ids. -/
theorem idgen_monotonic_witness :
    ascFrom 2 (idGenCalls 2 3) = true
    ∧ (⟨0, 0, none, "http://h.test", ["http://x.test/", "http://x.test/"], false, none⟩
        : PageNode).id = 0
    ∧ ascFrom (idGenInit 1) ((dfsRunFresh envDead 3 4 rootDead []).1.map PageNode.id) = true := by
  have h := idgen_monotonic_seed_zero_dfs_increasing
  refine ⟨h.1 2 3, ?_, h.2.2 envDead 3 4 rootDead []⟩
  have := h.2.1 envC6 7 "http://h.test"
    ⟨0, 0, none, "http://h.test", ["http://x.test/", "http://x.test/"], false, none⟩ 7 rfl
  exact this.1

/-!  ## Claim C8 — DFS with an unusable root -/

/-- When every link of the list fails to fetch, the inner loop exhausts the
links, builds nothing, raises nothing, and leaves the counter unchanged. -/
theorem dfsTryLinks_allFail (env : CrawlEnv) :
    ∀ (fuel : Nat) (links : List String) (cur : PageNode) (rand : List Nat) (gen : Int),
      links.length = fuel → (∀ l ∈ links, fetchFails env l) →
      ∃ l' r', dfsTryLinks env fuel links cur rand gen = (l', none, r', gen, none) := by
  intro fuel
  induction fuel with
  | zero =>
    intro links cur rand gen hlen hfail
    exact ⟨links, rand, rfl⟩
  | succ fuel ih =>
    intro links cur rand gen hlen hfail
    have hne : ¬ links.isEmpty := by
      cases links with
      | nil => simp at hlen
      | cons x xs => simp
    have hmem : links.getD (rand.headD 0 % links.length) "" ∈ links := by
      apply getD_mem
      apply Nat.mod_lt
      omega
    have hmk := makePagenode_fetchFails env .callable gen
      (links.getD (rand.headD 0 % links.length) "") (some cur) (hfail _ hmem)
    have hlen2 : (links.erase (links.getD (rand.headD 0 % links.length) "")).length = fuel := by
      rw [List.length_erase_of_mem hmem]
      omega
    have hfail2 : ∀ l ∈ links.erase (links.getD (rand.headD 0 % links.length) ""),
        fetchFails env l := fun l hl => hfail l (List.mem_of_mem_erase hl)
    obtain ⟨l', r', hrec⟩ := ih _ cur rand.tail gen hlen2 hfail2
    refine ⟨l', r', ?_⟩
    rw [dfsTryLinks, if_neg hne, hmk]
    exact hrec

/-- Claim C8: a DFS whose seed has no usable links (every link fails to
fetch, or there are none) terminates with nothing but the seed emitted:
the inner loop exhausts the links, backtracking evaluates
`node_list[cur_node.parent]` with the seed's `parent = None`, Python raises
`TypeError`, the driver catches it and finalizes — the store receives only
the sentinel batch.  (With `max_depth = 0` the loop is never entered and
the run ends normally, with the same single-sentinel store.) -/
theorem dfs_root_no_links_terminates :
    ∀ (env : CrawlEnv) (maxDepth fuel : Nat) (root : PageNode) (rand : List Nat)
      (flushAfter : Nat → Bool),
      root.depth = 0 → root.parent = none → 0 < maxDepth → 1 ≤ fuel →
      (∀ l ∈ root.links, fetchFails env l) →
      dfsRunFresh env maxDepth fuel root rand = ([], .err .typeError)
      ∧ driverFinish (dfsRunFresh env maxDepth fuel root rand) flushAfter
          = [[Entry.sentinel]] := by
  intro env maxDepth fuel root rand flushAfter hdep hpar hmd hfuel hfail
  cases fuel with
  | zero => omega
  | succ fuel =>
    have hrun : dfsRunFresh env maxDepth (fuel + 1) root rand = ([], .err .typeError) := by
      unfold dfsRunFresh
      rw [dfsRun]
      have hcur : ([root] : List PageNode).getD 0 default = root := rfl
      rw [hcur, hdep]
      rw [if_pos hmd]
      obtain ⟨l', r', htl⟩ := dfsTryLinks_allFail env root.links.length root.links root rand
        (idGenInit 1) rfl hfail
      rw [htl, hpar]
    exact ⟨hrun, by rw [hrun]; rfl⟩

/-- Witness for C8: the concrete dead-link seed over `envDead`. -/
theorem dfs_root_no_links_terminates_witness :
    dfsRunFresh envDead 3 5 rootDead [] = ([], .err .typeError)
    ∧ driverFinish (dfsRunFresh envDead 3 5 rootDead []) (fun _ => false)
        = [[Entry.sentinel]] :=
  dfs_root_no_links_terminates envDead 3 5 rootDead [] (fun _ => false)
    rfl rfl (by decide) (by decide) (by decide)

/-!  ## Claim C5 — end-phrase matching -/

theorem take_getD_drop {α : Type _} (d : α) :
    ∀ (t : List α) (i : Nat), i < t.length →
      t = t.take i ++ t.getD i d :: t.drop (i + 1) := by
  intro t
  induction t with
  | nil => intro i h; simp at h
  | cons c r ih =>
    intro i h
    cases i with
    | zero => rfl
    | succ i =>
      have := ih i (by simpa using h)
      calc c :: r = c :: (r.take i ++ r.getD i d :: r.drop (i + 1)) := by rw [← this]
        _ = (c :: r).take (i + 1) ++ (c :: r).getD (i + 1) d :: (c :: r).drop (i + 2) := rfl

theorem getD_drop {α : Type _} (d : α) :
    ∀ (t : List α) (a b : Nat), (t.drop a).getD b d = t.getD (a + b) d := by
  intro t
  induction t with
  | nil => intro a b; simp
  | cons c r ih =>
    intro a b
    cases a with
    | zero => simp
    | succ a =>
      show (r.drop a).getD b d = (c :: r).getD (a + 1 + b) d
      rw [ih a b]
      have : a + 1 + b = (a + b) + 1 := by omega
      rw [this]
      rfl

theorem getD_append_cons {α : Type _} (d : α) :
    ∀ (s1 : List α) (c : α) (rest : List α), (s1 ++ c :: rest).getD s1.length d = c := by
  intro s1
  induction s1 with
  | nil => intro c rest; rfl
  | cons x xs ih => intro c rest; exact ih c rest

theorem drop_append_cons {α : Type _} :
    ∀ (s1 : List α) (c : α) (rest : List α), (s1 ++ c :: rest).drop (s1.length + 1) = rest := by
  intro s1
  induction s1 with
  | nil => intro c rest; rfl
  | cons x xs ih => intro c rest; exact ih c rest

theorem ciListEq_length :
    ∀ (a b : List Char), ciListEq a b = true → a.length = b.length := by
  intro a
  induction a with
  | nil => intro b h; cases b with | nil => rfl | cons y ys => simp [ciListEq] at h
  | cons x xs ih =>
    intro b h
    cases b with
    | nil => simp [ciListEq] at h
    | cons y ys =>
      simp only [ciListEq, Bool.and_eq_true] at h
      simp only [List.length_cons, ih ys h.2]

/-- Counterexample to claim C5 as stated: the trailing character class of
`make_phrase_regex` is `[\.?!)'" ]`, which has no comma, so `error` does
NOT match in `An error, yes` — the claimed match fails on the code. -/
theorem phrase_comma_counterexample :
    makePhraseRegexSearch "error" "An error, yes" = false := by decide

/-- Claim C5, amended: phrase search is case-insensitive and succeeds
exactly when the phrase occurs preceded by a quote, opening parenthesis or
space and followed by sentence punctuation (`.?!` — a comma does not
qualify), a quote, a closing parenthesis, or a space; `error` matches in
`An error. yes` and in `(error)` (and case-insensitively in
`An ERROR! indeed`) but not in `errorHandler x` and not in
`An error, yes`. -/
theorem phrase_match_characterization :
    (∀ (ph t : List Char), phraseSearch ph t = true ↔
      ∃ (s1 mid s2 : List Char) (c1 c2 : Char),
        t = s1 ++ c1 :: (mid ++ c2 :: s2) ∧ phrasePre c1 = true ∧ phrasePost c2 = true
        ∧ ciListEq ph mid = true)
    ∧ makePhraseRegexSearch "error" "An error. yes" = true
    ∧ makePhraseRegexSearch "error" "(error)" = true
    ∧ makePhraseRegexSearch "error" "errorHandler x" = false
    ∧ makePhraseRegexSearch "error" "An ERROR! indeed" = true := by
  refine ⟨?_, by decide, by decide, by decide, by decide⟩
  intro ph t
  constructor
  · intro h
    rw [phraseSearch, List.any_eq_true] at h
    obtain ⟨i, hmem, hmatch⟩ := h
    simp only [matchPhraseAt, Bool.and_eq_true, decide_eq_true_eq] at hmatch
    obtain ⟨⟨⟨hi, hc1⟩, hmid⟩, hi2, hc2⟩ := hmatch
    refine ⟨t.take i, (t.drop (i + 1)).take ph.length,
      (t.drop (i + 1)).drop (ph.length + 1), t.getD i ' ',
      t.getD (i + 1 + ph.length) ' ', ?_, hc1, hc2, hmid⟩
    have hlen : ph.length < (t.drop (i + 1)).length := by
      rw [List.length_drop]
      omega
    have hu := take_getD_drop ' ' (t.drop (i + 1)) ph.length hlen
    have hg : (t.drop (i + 1)).getD ph.length ' ' = t.getD (i + 1 + ph.length) ' ' :=
      getD_drop ' ' t (i + 1) ph.length
    rw [hg] at hu
    calc t = t.take i ++ t.getD i ' ' :: t.drop (i + 1) := take_getD_drop ' ' t i hi
      _ = t.take i ++ t.getD i ' ' ::
            ((t.drop (i + 1)).take ph.length ++
              t.getD (i + 1 + ph.length) ' ' :: (t.drop (i + 1)).drop (ph.length + 1)) := by
          rw [← hu]
  · rintro ⟨s1, mid, s2, c1, c2, rfl, hc1, hc2, hmid⟩
    have hml : ph.length = mid.length := ciListEq_length ph mid hmid
    rw [phraseSearch, List.any_eq_true]
    have hlen : (s1 ++ c1 :: (mid ++ c2 :: s2)).length
        = s1.length + mid.length + s2.length + 2 := by
      simp [List.length_append]
      omega
    refine ⟨s1.length, List.mem_range.mpr (by omega), ?_⟩
    have hd : (s1 ++ c1 :: (mid ++ c2 :: s2)).drop (s1.length + 1) = mid ++ c2 :: s2 :=
      drop_append_cons s1 c1 (mid ++ c2 :: s2)
    have hgc1 : (s1 ++ c1 :: (mid ++ c2 :: s2)).getD s1.length ' ' = c1 :=
      getD_append_cons ' ' s1 c1 (mid ++ c2 :: s2)
    have hgc2 : (s1 ++ c1 :: (mid ++ c2 :: s2)).getD (s1.length + 1 + ph.length) ' ' = c2 := by
      rw [← getD_drop ' ' _ (s1.length + 1) ph.length, hd, hml]
      exact getD_append_cons ' ' mid c2 s2
    have hmid2 : ((s1 ++ c1 :: (mid ++ c2 :: s2)).drop (s1.length + 1)).take ph.length
        = mid := by
      rw [hd, hml]
      exact List.take_left mid (c2 :: s2)
    simp only [matchPhraseAt, Bool.and_eq_true, decide_eq_true_eq]
    exact ⟨⟨⟨by omega, by rw [hgc1]; exact hc1⟩, by rw [hmid2]; exact hmid⟩,
      by omega, by rw [hgc2]; exact hc2⟩

/-!  ## Claim C10 — favicon cache -/

theorem lookup_hhSet_absent (m : List (String × Option String)) (k : String)
    (v : Option String) (h : m.lookup k = none) : (hhSet m k v).lookup k = some v := by
  unfold hhSet
  rw [h]
  simp [List.lookup]

/-- Counterexample to claim C10 as stated: when `host + '/favicon.ico'`
404s with a body whose `<link rel="icon">` points back at `/favicon.ico`,
the recursive fallback re-probes the very same URL within the first call —
two network probes of `host + '/favicon.ico'` across the two calls, not at
most one.  (The second call still probes nothing.) -/
theorem favicon_double_probe_counterexample :
    getFavicon envFav404 ⟨[], []⟩ "http://h.test/page" none
      = .ok (none, ⟨[("h.test", none)], []⟩,
          ["http://h.test/favicon.ico", "http://h.test/favicon.ico"])
    ∧ getFavicon envFav404 ⟨[("h.test", none)], []⟩ "http://h.test/page" none
      = .ok (none, ⟨[("h.test", none)], []⟩, [])
    ∧ 1 < (["http://h.test/favicon.ico", "http://h.test/favicon.ico"]
          ++ ([] : List String)).count "http://h.test/favicon.ico" :=
  ⟨rfl, rfl, by decide⟩

/-- Claim C10, amended: for two successive `get_favicon` calls with page
URLs on the same host, both calls return the same result (the same
locally-served URL, or both null) and the second call issues no network
request at all and leaves the cache unchanged; but the FIRST call may probe
`host + '/favicon.ico'` more than once when a 404 body links back to
`/favicon.ico`, so "at most one probe across the two calls" does not hold. -/
theorem favicon_cache_same_host_consistent :
    ∀ (env : FavEnv) (st : FavState) (u1 u2 : String) (p1 p2 : Option String)
      (r1 : Option String) (st1 : FavState) (pr1 : List String),
      getHost u1 = getHost u2 → (getHost u2).isSome = true →
      getFavicon env st u1 p1 = .ok (r1, st1, pr1) →
      getFavicon env st1 u2 p2 = .ok (r1, st1, []) := by
  intro env st u1 u2 p1 p2 r1 st1 pr1 hh hsome h1
  cases hgu : getHost u2 with
  | none => rw [hgu] at hsome; simp at hsome
  | some host =>
    have hk1 : getHostKey u1 =
        some (host, String.mk (host.data.drop ((findSub host.data "//".data + 2).toNat))) := by
      rw [getHostKey, hh, hgu]
      rfl
    have hk2 : getHostKey u2 =
        some (host, String.mk (host.data.drop ((findSub host.data "//".data + 2).toNat))) := by
      rw [getHostKey, hgu]
      rfl
    simp only [getFavicon, hk1] at h1
    simp only [getFavicon, hk2]
    cases hlk : st.host_to_hash.lookup
        (String.mk (host.data.drop ((findSub host.data "//".data + 2).toNat))) with
    | some v =>
      rw [hlk] at h1
      cases v with
      | some hsh =>
        simp only [Except.ok.injEq, Prod.mk.injEq] at h1
        obtain ⟨rfl, rfl, rfl⟩ := h1
        rw [hlk]
      | none =>
        simp only [Except.ok.injEq, Prod.mk.injEq] at h1
        obtain ⟨rfl, rfl, rfl⟩ := h1
        rw [hlk]
    | none =>
      rw [hlk] at h1
      cases hfp : faviconFetchIcon env host u1 p1 with
      | error e => rw [hfp] at h1; simp at h1
      | ok v =>
        obtain ⟨icon, probes⟩ := v
        cases icon with
        | none =>
          rw [hfp] at h1
          simp only [Except.ok.injEq, Prod.mk.injEq] at h1
          obtain ⟨rfl, rfl, rfl⟩ := h1
          rw [lookup_hhSet_absent _ _ _ hlk]
        | some icon =>
          rw [hfp] at h1
          simp only [Except.ok.injEq, Prod.mk.injEq] at h1
          obtain ⟨rfl, rfl, rfl⟩ := h1
          rw [lookup_hhSet_absent _ _ _ hlk]

/-- Witness for C10 at the concrete 404-loop environment: the second call
returns the first call's null result without touching the network. -/
theorem favicon_cache_same_host_witness :
    getFavicon envFav404 ⟨[("h.test", none)], []⟩ "http://h.test/page" none
      = .ok (none, ⟨[("h.test", none)], []⟩, []) :=
  favicon_cache_same_host_consistent envFav404 ⟨[], []⟩ "http://h.test/page"
    "http://h.test/page" none none none ⟨[("h.test", none)], []⟩
    ["http://h.test/favicon.ico", "http://h.test/favicon.ico"] rfl rfl rfl

/-!  ## Claim C2 — every emitted non-seed node has an earlier parent -/

theorem getD_append_right_add {α : Type _} (d : α) :
    ∀ (l1 l2 : List α) (j : Nat), (l1 ++ l2).getD (l1.length + j) d = l2.getD j d := by
  intro l1
  induction l1 with
  | nil => intro l2 j; simp
  | cons x xs ih =>
    intro l2 j
    have h : (x :: xs).length + j = (xs.length + j) + 1 := by
      simp only [List.length_cons]
      omega
    rw [h]
    show (xs ++ l2).getD (xs.length + j) d = l2.getD j d
    exact ih l2 j

theorem take_append_le {α : Type _} :
    ∀ (l1 l2 : List α) (k : Nat), k ≤ l1.length → (l1 ++ l2).take k = l1.take k := by
  intro l1
  induction l1 with
  | nil =>
    intro l2 k h
    have hk : k = 0 := Nat.le_zero.mp (by simpa using h)
    subst hk
    rfl
  | cons x xs ih =>
    intro l2 k h
    cases k with
    | zero => rfl
    | succ k =>
      show x :: (xs ++ l2).take k = x :: xs.take k
      rw [ih l2 k (by simpa using h)]

theorem take_append_add {α : Type _} :
    ∀ (l1 l2 : List α) (j : Nat), (l1 ++ l2).take (l1.length + j) = l1 ++ l2.take j := by
  intro l1
  induction l1 with
  | nil => intro l2 j; simp
  | cons x xs ih =>
    intro l2 j
    have h : (x :: xs).length + j = (xs.length + j) + 1 := by
      simp only [List.length_cons]
      omega
    rw [h]
    show x :: (xs ++ l2).take (xs.length + j) = x :: (xs ++ l2.take j)
    rw [ih l2 j]

theorem mem_of_mem_take {α : Type _} :
    ∀ (l : List α) (k : Nat) (x : α), x ∈ l.take k → x ∈ l := by
  intro l
  induction l with
  | nil => intro k x h; simp at h
  | cons y ys ih =>
    intro k x h
    cases k with
    | zero => simp at h
    | succ k =>
      rcases List.mem_cons.mp h with he | hm
      · exact he ▸ List.mem_cons_self y ys
      · exact List.mem_cons_of_mem y (ih k x hm)

theorem mem_of_mem_eraseIdx {α : Type _} :
    ∀ (l : List α) (i : Nat) (x : α), x ∈ l.eraseIdx i → x ∈ l := by
  intro l
  induction l with
  | nil => intro i x h; simp [List.eraseIdx] at h
  | cons y ys ih =>
    intro i x h
    cases i with
    | zero => exact List.mem_cons_of_mem y h
    | succ i =>
      rcases List.mem_cons.mp h with he | hm
      · exact he ▸ List.mem_cons_self y ys
      · exact List.mem_cons_of_mem y (ih i x hm)

theorem witnessedFrom_nil (pre : List PageNode) : WitnessedFrom pre [] := by
  intro k hk
  simp at hk

theorem witnessedFrom_cons (pre : List PageNode) (n : PageNode) (out : List PageNode)
    (h1 : ∀ pid, n.parent = some pid → ∃ m ∈ pre, m.id = pid ∧ m.depth + 1 = n.depth)
    (h2 : WitnessedFrom (pre ++ [n]) out) : WitnessedFrom pre (n :: out) := by
  intro k hk pid hpid
  cases k with
  | zero =>
    obtain ⟨m, hm, hprop⟩ := h1 pid hpid
    exact ⟨m, by simpa using hm, hprop⟩
  | succ k =>
    have hk' : k < out.length := by simpa using hk
    obtain ⟨m, hm, hprop⟩ := h2 k hk' pid hpid
    refine ⟨m, ?_, hprop⟩
    have : (n :: out).take (k + 1) = n :: out.take k := rfl
    rw [this]
    rcases List.mem_append.mp hm with hma | hmb
    · rcases List.mem_append.mp hma with hx | hy
      · exact List.mem_append.mpr (Or.inl hx)
      · have he : m = n := by simpa using hy
        refine List.mem_append.mpr (Or.inr ?_)
        rw [he]
        exact List.mem_cons_self n (out.take k)
    · exact List.mem_append.mpr (Or.inr (List.mem_cons_of_mem n hmb))

theorem witnessedFrom_append (acc out1 out2 : List PageNode)
    (h1 : WitnessedFrom acc out1) (h2 : WitnessedFrom (acc ++ out1) out2) :
    WitnessedFrom acc (out1 ++ out2) := by
  intro k hk pid hpid
  by_cases hlt : k < out1.length
  · rw [getD_append_left default out1 out2 k hlt] at hpid ⊢
    obtain ⟨m, hm, hprop⟩ := h1 k hlt pid hpid
    refine ⟨m, ?_, hprop⟩
    rw [take_append_le out1 out2 k (by omega)]
    exact hm
  · obtain ⟨j, rfl⟩ : ∃ j, k = out1.length + j := ⟨k - out1.length, by omega⟩
    rw [getD_append_right_add default out1 out2 j] at hpid ⊢
    have hk2 : j < out2.length := by
      rw [List.length_append] at hk
      omega
    obtain ⟨m, hm, hprop⟩ := h2 j hk2 pid hpid
    refine ⟨m, ?_, hprop⟩
    rw [take_append_add out1 out2 j, ← List.append_assoc]
    exact hm

theorem parentWitnessed_of_witnessedFrom (root : PageNode) (out : List PageNode)
    (hroot : root.parent = none) (h : WitnessedFrom [root] out) :
    ParentWitnessed (root :: out) := by
  intro i hi pid hpid
  cases i with
  | zero =>
    have : (root :: out).getD 0 default = root := rfl
    rw [this, hroot] at hpid
    exact absurd hpid (by simp)
  | succ k =>
    have hgd : (root :: out).getD (k + 1) default = out.getD k default := rfl
    rw [hgd] at hpid
    have hk : k < out.length := by simpa using hi
    obtain ⟨m, hm, hprop⟩ := h k hk pid hpid
    have hmem : m ∈ (root :: out).take (k + 1) := by
      have : (root :: out).take (k + 1) = root :: out.take k := rfl
      rw [this]
      rcases List.mem_append.mp hm with hx | hy
      · have : m = root := by simpa using hx
        exact this ▸ List.mem_cons_self root (out.take k)
      · exact List.mem_cons_of_mem root hy
    obtain ⟨j, hj, hje⟩ := mem_getD_of_mem default _ m hmem
    have hjlen : j < k + 1 := by
      have := List.length_take (k + 1) (root :: out)
      omega
    refine ⟨j, hjlen, ?_, ?_⟩
    · rw [← getD_take default (root :: out) (k + 1) j hjlen, hje]
      exact hprop.1
    · rw [← getD_take default (root :: out) (k + 1) j hjlen, hje, hgd]
      exact hprop.2

theorem bfsTasks_par (frontier : List PageNode) (t : BfsTask) (h : t ∈ bfsTasks frontier) :
    t.par ∈ frontier := by
  unfold bfsTasks at h
  rw [List.mem_flatMap] at h
  obtain ⟨nd, hnd, hmem⟩ := h
  rw [List.mem_map] at hmem
  obtain ⟨l, -, he⟩ := hmem
  rw [← he]
  exact hnd

theorem bfsProcess_witnessed (env : CrawlEnv) (maxDepth depth : Nat) :
    ∀ (fuel : Nat) (tasks : List BfsTask) (sched : List Nat) (gen : Int)
      (acc : List PageNode),
      (∀ t ∈ tasks, ∃ m ∈ acc, m.id = t.par.id ∧ m.depth = t.par.depth) →
      WitnessedFrom acc (bfsProcess env maxDepth depth fuel tasks sched gen).emitted
      ∧ (∀ x ∈ (bfsProcess env maxDepth depth fuel tasks sched gen).next,
          x ∈ (bfsProcess env maxDepth depth fuel tasks sched gen).emitted) := by
  intro fuel
  induction fuel with
  | zero =>
    intro tasks sched gen acc _
    exact ⟨witnessedFrom_nil acc, by intro x hx; simp [bfsProcess] at hx⟩
  | succ fuel ih =>
    intro tasks sched gen acc hacc
    rw [bfsProcess]
    by_cases hne : tasks.isEmpty
    · rw [if_pos hne]
      exact ⟨witnessedFrom_nil acc, by intro x hx; simp at hx⟩
    · rw [if_neg hne]
      have htasklen : 0 < tasks.length := by
        cases tasks with
        | nil => simp at hne
        | cons a b => simp
      have htk : tasks.getD (sched.headD 0 % tasks.length) default ∈ tasks :=
        getD_mem default tasks _ (Nat.mod_lt _ htasklen)
      have hsub : ∀ t ∈ tasks.eraseIdx (sched.headD 0 % tasks.length),
          ∃ m ∈ acc, m.id = t.par.id ∧ m.depth = t.par.depth :=
        fun t ht => hacc t (mem_of_mem_eraseIdx tasks _ t ht)
      cases hmk : makePagenode env .callable gen
          (tasks.getD (sched.headD 0 % tasks.length) default).link
          (some (tasks.getD (sched.headD 0 % tasks.length) default).par) with
      | error e2 => exact ih _ sched.tail gen acc hsub
      | ok v =>
        obtain ⟨b2, g2⟩ := v
        cases b2 with
        | none => exact ih _ sched.tail g2 acc hsub
        | some n =>
          have hshape := makePagenode_ok_shape env gen _ _ n g2 hmk
          have hnpar : n.parent =
              some (tasks.getD (sched.headD 0 % tasks.length) default).par.id := by
            simpa using hshape.2.2.2.1
          have hndep : n.depth =
              (tasks.getD (sched.headD 0 % tasks.length) default).par.depth + 1 := by
            simpa using hshape.2.2.2.2.1
          have hwit : ∀ pid, n.parent = some pid →
              ∃ m ∈ acc, m.id = pid ∧ m.depth + 1 = n.depth := by
            intro pid hpid
            rw [hnpar] at hpid
            obtain ⟨m, hm, hid, hdep⟩ := hacc _ htk
            refine ⟨m, hm, ?_, ?_⟩
            · rw [hid]; exact (Option.some.injEq _ _).mp hpid
            · rw [hdep, hndep]
          dsimp only
          by_cases hpf : n.phrase_found = true
          · rw [if_pos hpf]
            refine ⟨?_, by intro x hx; simp at hx⟩
            exact witnessedFrom_cons acc n []
              hwit (witnessedFrom_nil _)
          · rw [if_neg hpf]
            have hsub2 : ∀ t ∈ tasks.eraseIdx (sched.headD 0 % tasks.length),
                ∃ m ∈ acc ++ [n], m.id = t.par.id ∧ m.depth = t.par.depth := by
              intro t ht
              obtain ⟨m, hm, hp⟩ := hsub t ht
              exact ⟨m, List.mem_append.mpr (Or.inl hm), hp⟩
            have hrec := ih _ sched.tail g2 (acc ++ [n]) hsub2
            refine ⟨witnessedFrom_cons acc n _ hwit hrec.1, ?_⟩
            intro x hx
            dsimp only at hx ⊢
            by_cases hdlt : depth < maxDepth
            · rw [if_pos hdlt] at hx
              rcases List.mem_cons.mp hx with he | hm
              · exact he ▸ List.mem_cons_self n _
              · exact List.mem_cons_of_mem n (hrec.2 x hm)
            · rw [if_neg hdlt] at hx
              exact List.mem_cons_of_mem n (hrec.2 x hx)

theorem bfsLevels_witnessed (env : CrawlEnv) (maxDepth : Nat) :
    ∀ (lvls depth : Nat) (frontier : List PageNode) (sched : List Nat) (gen : Int)
      (acc : List PageNode),
      (∀ x ∈ frontier, x ∈ acc) →
      WitnessedFrom acc (bfsLevels env maxDepth lvls depth frontier sched gen) := by
  intro lvls
  induction lvls with
  | zero => intro depth frontier sched gen acc _; exact witnessedFrom_nil acc
  | succ lvls ih =>
    intro depth frontier sched gen acc hacc
    rw [bfsLevels]
    have hts : ∀ t ∈ bfsTasks frontier,
        ∃ m ∈ acc, m.id = t.par.id ∧ m.depth = t.par.depth :=
      fun t ht => ⟨t.par, hacc t.par (bfsTasks_par frontier t ht), rfl, rfl⟩
    have hp := bfsProcess_witnessed env maxDepth depth (bfsTasks frontier).length
      (bfsTasks frontier) sched gen acc hts
    by_cases hstop : (bfsProcess env maxDepth depth (bfsTasks frontier).length
        (bfsTasks frontier) sched gen).stopped = true
    · rw [if_pos hstop]
      exact hp.1
    · rw [if_neg hstop]
      refine witnessedFrom_append acc _ _ hp.1 (ih _ _ _ _ _ ?_)
      intro x hx
      exact List.mem_append.mpr (Or.inr (hp.2 x hx))

theorem dfsRun_witnessed (env : CrawlEnv) (maxDepth : Nat) :
    ∀ (fuel : Nat) (st : DfsState) (acc : List PageNode),
      st.curIdx < st.node_list.length →
      (∀ i, i < st.node_list.length → (st.node_list.getD i default).id = (i : Int)) →
      st.gen = (st.node_list.length : Int) - 1 →
      (∀ x ∈ st.node_list, ∀ p, x.parent = some p →
        0 ≤ p ∧ p.toNat < st.node_list.length) →
      (∀ x ∈ st.node_list, ∃ m ∈ acc, m.id = x.id ∧ m.depth = x.depth) →
      WitnessedFrom acc (dfsRun env maxDepth fuel st).1 := by
  intro fuel
  induction fuel with
  | zero => intro st acc _ _ _ _ _; exact witnessedFrom_nil acc
  | succ fuel ih =>
    intro st acc hidx hids hgen hpb hacc
    rw [dfsRun]
    have hcurmem : st.node_list.getD st.curIdx default ∈ st.node_list :=
      getD_mem default _ _ hidx
    have hcurid : (st.node_list.getD st.curIdx default).id = (st.curIdx : Int) :=
      hids st.curIdx hidx
    by_cases hd : (st.node_list.getD st.curIdx default).depth < maxDepth
    · rw [if_pos hd]
      rcases htl : dfsTryLinks env (st.node_list.getD st.curIdx default).links.length
          (st.node_list.getD st.curIdx default).links
          (st.node_list.getD st.curIdx default) st.rand st.gen with ⟨l', b, r', g', e⟩
      have hshape := dfsTryLinks_shape env _ _ _ _ _ _ _ _ _ _ htl
      cases e with
      | some e2 => cases b <;> exact witnessedFrom_nil acc
      | none =>
        cases b with
        | none =>
          dsimp only
          have hg : g' = st.gen := hshape.1 rfl
          subst hg
          generalize hnl : st.node_list.set st.curIdx
              ⟨(st.node_list.getD st.curIdx default).id,
               (st.node_list.getD st.curIdx default).depth,
               (st.node_list.getD st.curIdx default).parent,
               (st.node_list.getD st.curIdx default).url, l',
               (st.node_list.getD st.curIdx default).phrase_found,
               (st.node_list.getD st.curIdx default).favicon⟩ = nl
          have hnllen : nl.length = st.node_list.length := by
            rw [← hnl]
            exact List.length_set _ _ _
          have hnlids : ∀ i, i < nl.length → (nl.getD i default).id = (i : Int) := by
            intro i hi
            rw [hnllen] at hi
            rw [← hnl]
            by_cases hic : i = st.curIdx
            · rw [hic, getD_set_self default st.node_list st.curIdx _ hidx]
              exact hcurid
            · rw [getD_set_ne default st.node_list st.curIdx i _ (fun he => hic he.symm)]
              exact hids i hi
          have hnlpb : ∀ x ∈ nl, ∀ q, x.parent = some q →
              0 ≤ q ∧ q.toNat < nl.length := by
            intro x hx q hq
            rw [hnllen]
            rw [← hnl] at hx
            rcases List.mem_or_eq_of_mem_set hx with hmem | heq
            · exact hpb x hmem q hq
            · rw [heq] at hq
              exact hpb _ hcurmem q hq
          have hnlacc : ∀ x ∈ nl, ∃ m ∈ acc, m.id = x.id ∧ m.depth = x.depth := by
            intro x hx
            rw [← hnl] at hx
            rcases List.mem_or_eq_of_mem_set hx with hmem | heq
            · exact hacc x hmem
            · obtain ⟨m, hm, hprop⟩ := hacc _ hcurmem
              rw [heq]
              exact ⟨m, hm, hprop⟩
          cases hpar : (st.node_list.getD st.curIdx default).parent with
          | none => exact witnessedFrom_nil acc
          | some p =>
            dsimp only
            refine ih ⟨nl, p.toNat, r', st.gen⟩ acc ?_ hnlids ?_ hnlpb hnlacc
            · show p.toNat < nl.length
              rw [hnllen]
              exact (hpb _ hcurmem p hpar).2
            · show st.gen = (nl.length : Int) - 1
              rw [hnllen]
              exact hgen
        | some n =>
          obtain ⟨hid, hg, hnpar, hndep⟩ := hshape.2 n rfl
          subst hg
          dsimp only
          have hwit : ∀ pid, n.parent = some pid →
              ∃ m ∈ acc, m.id = pid ∧ m.depth + 1 = n.depth := by
            intro pid hpid
            rw [hnpar] at hpid
            obtain ⟨m, hm, hmid, hmdep⟩ := hacc _ hcurmem
            refine ⟨m, hm, ?_, ?_⟩
            · rw [hmid]
              exact (Option.some.injEq _ _).mp hpid
            · rw [hmdep, hndep]
          by_cases hpf : n.phrase_found = true
          · rw [if_pos hpf]
            exact witnessedFrom_cons acc n [] hwit (witnessedFrom_nil _)
          · rw [if_neg hpf]
            generalize hnl : st.node_list.set st.curIdx
                ⟨(st.node_list.getD st.curIdx default).id,
                 (st.node_list.getD st.curIdx default).depth,
                 (st.node_list.getD st.curIdx default).parent,
                 (st.node_list.getD st.curIdx default).url, l',
                 (st.node_list.getD st.curIdx default).phrase_found,
                 (st.node_list.getD st.curIdx default).favicon⟩ = nl
            have hnllen : nl.length = st.node_list.length := by
              rw [← hnl]
              exact List.length_set _ _ _
            have hnlids : ∀ i, i < nl.length → (nl.getD i default).id = (i : Int) := by
              intro i hi
              rw [hnllen] at hi
              rw [← hnl]
              by_cases hic : i = st.curIdx
              · rw [hic, getD_set_self default st.node_list st.curIdx _ hidx]
                exact hcurid
              · rw [getD_set_ne default st.node_list st.curIdx i _ (fun he => hic he.symm)]
                exact hids i hi
            have hnlpb : ∀ x ∈ nl, ∀ q, x.parent = some q →
                0 ≤ q ∧ q.toNat < nl.length := by
              intro x hx q hq
              rw [hnllen]
              rw [← hnl] at hx
              rcases List.mem_or_eq_of_mem_set hx with hmem | heq
              · exact hpb x hmem q hq
              · rw [heq] at hq
                exact hpb _ hcurmem q hq
            have hnlacc : ∀ x ∈ nl, ∃ m ∈ acc, m.id = x.id ∧ m.depth = x.depth := by
              intro x hx
              rw [← hnl] at hx
              rcases List.mem_or_eq_of_mem_set hx with hmem | heq
              · exact hacc x hmem
              · obtain ⟨m, hm, hprop⟩ := hacc _ hcurmem
                rw [heq]
                exact ⟨m, hm, hprop⟩
            refine witnessedFrom_cons acc n _ hwit ?_
            refine ih ⟨nl ++ [n], nl.length, r', st.gen + 1⟩ (acc ++ [n]) ?_ ?_ ?_ ?_ ?_
            · show nl.length < (nl ++ [n]).length
              simp
            · intro i hi
              simp only [List.length_append, List.length_cons, List.length_nil] at hi
              by_cases hilt : i < nl.length
              · rw [getD_append_left default nl [n] i hilt]
                exact hnlids i hilt
              · have hieq : i = nl.length := by omega
                rw [hieq, getD_append_len default nl n, hid, hgen, ← hnllen]
                omega
            · show st.gen + 1 = ((nl ++ [n]).length : Int) - 1
              simp only [List.length_append, List.length_cons, List.length_nil]
              rw [hgen, ← hnllen]
              push_cast
              omega
            · intro x hx q hq
              simp only [List.length_append, List.length_cons, List.length_nil]
              rcases List.mem_append.mp hx with hset | hn2
              · have := hnlpb x hset q hq
                omega
              · have hx2 : x = n := by simpa using hn2
                rw [hx2, hnpar] at hq
                have hqv : q = (st.curIdx : Int) := by
                  rw [← hcurid]
                  exact ((Option.some.injEq _ _).mp hq).symm
                rw [hqv]
                refine ⟨by omega, by omega⟩
            · intro x hx
              rcases List.mem_append.mp hx with hset | hn2
              · obtain ⟨m, hm, hprop⟩ := hnlacc x hset
                exact ⟨m, List.mem_append.mpr (Or.inl hm), hprop⟩
              · have hx2 : x = n := by simpa using hn2
                rw [hx2]
                exact ⟨n, List.mem_append.mpr (Or.inr (List.mem_cons_self n [])), rfl, rfl⟩
    · rw [if_neg hd]
      exact witnessedFrom_nil acc

/-- Claim C2: for every node emitted by a crawl (DFS or BFS) other than the
seed, a node whose id equals the emitted node's parent and whose depth is
one less was emitted earlier in the output stream (the stream headed by the
seed, which the start call hands to the client).  The BFS model lets an
arbitrary scheduler choose the order in which pending fetches complete, so
the property holds for every completion order of the thread pool. -/
theorem crawl_parent_emitted_earlier :
    (∀ (env : CrawlEnv) (maxDepth fuel : Nat) (rand : List Nat) (root : PageNode),
      root.parent = none → root.id = 0 →
      ParentWitnessed (root :: (dfsRunFresh env maxDepth fuel root rand).1))
    ∧ (∀ (env : CrawlEnv) (maxDepth : Nat) (sched : List Nat) (gen : Int)
        (root : PageNode),
      root.parent = none →
      ParentWitnessed (root :: bfsRunList env maxDepth [root] sched gen)) := by
  constructor
  · intro env maxDepth fuel rand root hpar hid
    apply parentWitnessed_of_witnessedFrom root _ hpar
    apply dfsRun_witnessed env maxDepth fuel ⟨[root], 0, rand, idGenInit 1⟩ [root]
    · simp
    · intro i hi
      have h0 : i = 0 := by simpa using hi
      subst h0
      simpa using hid
    · simp [idGenInit]
    · intro x hx p hp
      have hx0 : x = root := by simpa using hx
      rw [hx0, hpar] at hp
      simp at hp
    · intro x hx
      have hx0 : x = root := by simpa using hx
      rw [hx0]
      exact ⟨root, by simp, rfl, rfl⟩
  · intro env maxDepth sched gen root hpar
    apply parentWitnessed_of_witnessedFrom root _ hpar
    unfold bfsRunList
    exact bfsLevels_witnessed env maxDepth maxDepth 1 [root] sched gen [root]
      (fun x hx => hx)

/-- Witness for C2: concrete DFS and BFS runs over the dead-network
environment. -/
theorem crawl_parent_emitted_earlier_witness :
    ParentWitnessed (rootDead :: (dfsRunFresh envDead 3 4 rootDead []).1)
    ∧ ParentWitnessed (rootDead :: bfsRunList envDead 2 [rootDead] [] 0) :=
  ⟨crawl_parent_emitted_earlier.1 envDead 3 4 [] rootDead rfl rfl,
   crawl_parent_emitted_earlier.2 envDead 2 [] 0 rootDead rfl⟩
